import Mathlib

/-!
Shallow embedding of `scripts/iterative-search.py`, the iterative adaptive
local-search profile tuner.  Python floats are modelled as exact rationals
(`ℚ`); values that can be `-inf` (objective_value / avg_score, where the
failure sentinel uses `-math.inf`) are modelled as `WithBot ℚ` with `⊥`
playing the role of `-inf`.  Python's `round(x, 6)` is modelled as
round-half-up at six decimals; none of the verified properties depends on the
direction of half-way ties.  A Python `dict` is modelled as an association
list (`List (String × ℚ)`) with first-match lookup, matching `dict` insertion
order where the code relies on it.  Decimal literals from the source are
written as fractions over `1000000` (e.g. `0.35` as `350000/1000000`).
-/

namespace IterSearch

/-- Profiles are string-keyed mappings to (exact) float values, as in the
Python `Dict[str, float]`. -/
abbrev Profile : Type := List (String × ℚ)

/-- Values that may be `-inf` (`⊥`). -/
abbrev Val : Type := WithBot ℚ

/-- Python `profile.get(key, default)`. -/
def pget (p : Profile) (k : String) (d : ℚ) : ℚ :=
  (List.lookup k p).getD d

/-- `SCALE_KEYS` from the source, in source order. -/
def SCALE_KEYS : List String :=
  [ "risk_weight_scale"
  , "survival_weight_scale"
  , "aggression_weight_scale"
  , "fire_reward_scale"
  , "shot_penalty_scale"
  , "miss_fire_penalty_scale"
  , "action_penalty_scale"
  , "turn_penalty_scale"
  , "thrust_penalty_scale"
  , "center_weight_scale"
  , "edge_penalty_scale"
  , "lookahead_frames_scale"
  , "flow_weight_scale"
  , "speed_soft_cap_scale"
  , "fire_distance_scale"
  , "lurk_trigger_scale"
  , "lurk_boost_scale"
  , "fire_tolerance_scale" ]

/-- `SCALE_BOUNDS` from the source, held in integer micro-units (`×10⁻⁶`) so
that facts about the static table are decidable.  The Python dict is only
ever indexed at members of `SCALE_KEYS`; the catch-all arm is unreachable at
every call site. -/
def SCALE_BOUNDS_INT : String → ℤ × ℤ
  | "risk_weight_scale" => (350000, 2300000)        -- (0.35, 2.3)
  | "survival_weight_scale" => (350000, 2400000)    -- (0.35, 2.4)
  | "aggression_weight_scale" => (400000, 2600000)  -- (0.4, 2.6)
  | "fire_reward_scale" => (350000, 2600000)        -- (0.35, 2.6)
  | "shot_penalty_scale" => (250000, 2200000)       -- (0.25, 2.2)
  | "miss_fire_penalty_scale" => (250000, 2400000)  -- (0.25, 2.4)
  | "action_penalty_scale" => (250000, 1700000)     -- (0.25, 1.7)
  | "turn_penalty_scale" => (250000, 1700000)       -- (0.25, 1.7)
  | "thrust_penalty_scale" => (250000, 1700000)     -- (0.25, 1.7)
  | "center_weight_scale" => (250000, 2200000)      -- (0.25, 2.2)
  | "edge_penalty_scale" => (250000, 2400000)       -- (0.25, 2.4)
  | "lookahead_frames_scale" => (550000, 1800000)   -- (0.55, 1.8)
  | "flow_weight_scale" => (350000, 2400000)        -- (0.35, 2.4)
  | "speed_soft_cap_scale" => (600000, 1900000)     -- (0.6, 1.9)
  | "fire_distance_scale" => (550000, 1900000)      -- (0.55, 1.9)
  | "lurk_trigger_scale" => (500000, 2000000)       -- (0.5, 2.0)
  | "lurk_boost_scale" => (500000, 2500000)         -- (0.5, 2.5)
  | "fire_tolerance_scale" => (500000, 2600000)     -- (0.5, 2.6)
  | _ => (0, 0)

/-- The `(lo, hi)` interval of a scale key, as exact rationals. -/
def SCALE_BOUNDS (k : String) : ℚ × ℚ :=
  (((SCALE_BOUNDS_INT k).1 : ℚ) / 1000000, ((SCALE_BOUNDS_INT k).2 : ℚ) / 1000000)

def DELTA_KEY : String := "min_fire_quality_delta"

/-- `DELTA_BOUNDS = (-0.35, 0.3)`, in integer micro-units. -/
def DELTA_BOUNDS_INT : ℤ × ℤ := (-350000, 300000)

def DELTA_BOUNDS : ℚ × ℚ :=
  (((DELTA_BOUNDS_INT.1 : ℚ) / 1000000), ((DELTA_BOUNDS_INT.2 : ℚ) / 1000000))

def PROFILE_KEYS : List String := SCALE_KEYS ++ [DELTA_KEY]

/-- `clamp(value, lo, hi) = max(lo, min(hi, value))`. -/
def clamp (value lo hi : ℚ) : ℚ :=
  max lo (min hi value)

/-- Python `round(x, 6)` (six decimal places), modelled as round-half-up. -/
def round6 (x : ℚ) : ℚ :=
  (Int.floor (x * 1000000 + 1/2) : ℚ) / 1000000

/-- A "normalize-shaped" association list: per scale key a value clamped into
its interval and rounded, then the delta key likewise.  This is the dict
shape built by both `normalize_profile` and the blend loop in
`blend_profiles`. -/
def shaped (g : String → ℚ) (d : ℚ) : Profile :=
  (SCALE_KEYS.map (fun k =>
    (k, round6 (clamp (g k) (SCALE_BOUNDS k).1 (SCALE_BOUNDS k).2))))
  ++ [(DELTA_KEY, round6 (clamp d DELTA_BOUNDS.1 DELTA_BOUNDS.2))]

/-- `normalize_profile`: every scale key defaulted to `1.0`, clamped into its
bound interval and rounded; the delta key defaulted to `0.0`, clamped and
rounded.  Output dict in insertion order: scale keys then the delta key. -/
def normalize_profile (p : Profile) : Profile :=
  shaped (fun k => pget p k 1) (pget p DELTA_KEY 0)

/-- `profile_signature`: the source serializes the normalized profile with
sorted keys (`json.dumps(..., sort_keys=True)`).  That serialization is an
injective function of the normalized key/value mapping, so signature equality
is modelled as equality of the normalized profiles themselves. -/
def profile_signature (p : Profile) : Profile :=
  normalize_profile p

/-- `blend_profiles(a, b, alpha)`: convex combination, clamped and rounded per
key, then normalized once more.  Python indexes `a[key]`/`b[key]` directly
(raising on a missing key); all call sites pass full normalized profiles, so
the default in `pget` is unreachable there. -/
def blend_profiles (a b : Profile) (alpha : ℚ) : Profile :=
  normalize_profile
    (shaped
      (fun k => pget a k 0 * clamp alpha 0 1 + pget b k 0 * (1 - clamp alpha 0 1))
      (pget a DELTA_KEY 0 * clamp alpha 0 1 + pget b DELTA_KEY 0 * (1 - clamp alpha 0 1)))

/-- `profile_delta(newer, older)`: per-key rounded difference over all profile
keys (again, direct indexing in Python, total on full profiles). -/
def profile_delta (newer older : Profile) : Profile :=
  PROFILE_KEYS.map (fun k => (k, round6 (pget newer k 0 - pget older k 0)))

/-! ### Basic facts about rounding, clamping and normalized lookups -/

theorem floor_half : Int.floor ((1 : ℚ)/2) = 0 := by
  rw [Int.floor_eq_iff]
  norm_num

theorem round6_intCast_div (n : ℤ) : round6 ((n : ℚ) / 1000000) = (n : ℚ) / 1000000 := by
  unfold round6
  have h : (n : ℚ) / 1000000 * 1000000 = (n : ℚ) := by
    field_simp
  rw [h]
  have hfloor : Int.floor ((n : ℚ) + 1/2) = n := by
    rw [add_comm, Int.floor_add_int, floor_half, zero_add]
  rw [hfloor]

theorem round6_eq_div (x : ℚ) : ∃ n : ℤ, round6 x = (n : ℚ) / 1000000 :=
  ⟨Int.floor (x * 1000000 + 1/2), rfl⟩

theorem round6_round6 (x : ℚ) : round6 (round6 x) = round6 x := by
  obtain ⟨n, hn⟩ := round6_eq_div x
  rw [hn, round6_intCast_div]

theorem round6_mono {x y : ℚ} (h : x ≤ y) : round6 x ≤ round6 y := by
  unfold round6
  have h6 : (0 : ℚ) < 1000000 := by norm_num
  rw [div_le_div_iff_of_pos_right h6]
  exact_mod_cast Int.floor_mono (by linarith)

theorem clamp_le {v lo hi : ℚ} (h : lo ≤ hi) : clamp v lo hi ≤ hi :=
  max_le h (min_le_left _ _)

theorem le_clamp (v lo hi : ℚ) : lo ≤ clamp v lo hi :=
  le_max_left _ _

theorem clamp_eq_self {v lo hi : ℚ} (h1 : lo ≤ v) (h2 : v ≤ hi) : clamp v lo hi = v := by
  unfold clamp
  rw [min_eq_right h2, max_eq_right h1]

/-- The static bounds table: every interval is nontrivial (`lo < hi`). -/
theorem scale_bounds_nontrivial :
    ∀ k ∈ SCALE_KEYS, (SCALE_BOUNDS k).1 < (SCALE_BOUNDS k).2 := by
  have hint : ∀ k ∈ SCALE_KEYS, (SCALE_BOUNDS_INT k).1 < (SCALE_BOUNDS_INT k).2 := by decide
  intro k hk
  have h6 : (0 : ℚ) < 1000000 := by norm_num
  unfold SCALE_BOUNDS
  rw [div_lt_div_iff_of_pos_right h6]
  exact_mod_cast hint k hk

/-- Every declared bound is exactly representable at six decimals. -/
theorem scale_bounds_round6_fixed (k : String) :
    round6 (SCALE_BOUNDS k).1 = (SCALE_BOUNDS k).1 ∧
      round6 (SCALE_BOUNDS k).2 = (SCALE_BOUNDS k).2 :=
  ⟨round6_intCast_div _, round6_intCast_div _⟩

theorem delta_bounds_round6_fixed :
    round6 DELTA_BOUNDS.1 = DELTA_BOUNDS.1 ∧ round6 DELTA_BOUNDS.2 = DELTA_BOUNDS.2 :=
  ⟨round6_intCast_div _, round6_intCast_div _⟩

theorem lookup_map_append {β : Type} (keys : List String) (f : String → β)
    (tail : List (String × β)) (k : String) (hk : k ∈ keys) :
    List.lookup k (keys.map (fun j => (j, f j)) ++ tail) = some (f k) := by
  induction keys with
  | nil => cases hk
  | cons j rest ih =>
    rcases List.mem_cons.mp hk with h | h
    · subst h
      simp [List.lookup]
    · by_cases hkj : k = j
      · subst hkj
        simp [List.lookup]
      · have hbeq : (k == j) = false := by simp [hkj]
        simp [List.lookup, hbeq, ih h]

theorem lookup_map_append_not_mem {β : Type} (keys : List String) (f : String → β)
    (tail : List (String × β)) (k : String) (hk : k ∉ keys) :
    List.lookup k (keys.map (fun j => (j, f j)) ++ tail) = List.lookup k tail := by
  induction keys with
  | nil => rfl
  | cons j rest ih =>
    have hkj : k ≠ j := fun h => hk (h ▸ List.mem_cons_self j rest)
    have hbeq : (k == j) = false := by simp [hkj]
    have hrest : k ∉ rest := fun h => hk (List.mem_cons_of_mem _ h)
    simp [List.lookup, hbeq, ih hrest]

theorem delta_key_not_scale : DELTA_KEY ∉ SCALE_KEYS := by decide

/-- Lookup of a scale key in a normalized profile. -/
theorem lookup_normalize_scale (p : Profile) (k : String) (hk : k ∈ SCALE_KEYS) :
    List.lookup k (normalize_profile p) =
      some (round6 (clamp (pget p k 1) (SCALE_BOUNDS k).1 (SCALE_BOUNDS k).2)) :=
  lookup_map_append SCALE_KEYS _ _ k hk

/-- Lookup of the delta key in a normalized profile. -/
theorem lookup_normalize_delta (p : Profile) :
    List.lookup DELTA_KEY (normalize_profile p) =
      some (round6 (clamp (pget p DELTA_KEY 0) DELTA_BOUNDS.1 DELTA_BOUNDS.2)) := by
  unfold normalize_profile shaped
  rw [lookup_map_append_not_mem SCALE_KEYS _ _ DELTA_KEY delta_key_not_scale]
  simp [List.lookup]

/-- Clamp-then-round lands inside the (six-decimal-representable) scale
interval, for any input value. -/
theorem round6_clamp_scale_mem (v : ℚ) (k : String) (hk : k ∈ SCALE_KEYS) :
    (SCALE_BOUNDS k).1 ≤ round6 (clamp v (SCALE_BOUNDS k).1 (SCALE_BOUNDS k).2) ∧
      round6 (clamp v (SCALE_BOUNDS k).1 (SCALE_BOUNDS k).2) ≤ (SCALE_BOUNDS k).2 := by
  obtain ⟨hlo, hhi⟩ := scale_bounds_round6_fixed k
  have hlt := le_of_lt (scale_bounds_nontrivial k hk)
  constructor
  · calc (SCALE_BOUNDS k).1 = round6 (SCALE_BOUNDS k).1 := hlo.symm
      _ ≤ _ := round6_mono (le_clamp _ _ _)
  · calc round6 (clamp v (SCALE_BOUNDS k).1 (SCALE_BOUNDS k).2)
        ≤ round6 (SCALE_BOUNDS k).2 := round6_mono (clamp_le hlt)
      _ = (SCALE_BOUNDS k).2 := hhi

theorem round6_clamp_delta_mem (v : ℚ) :
    DELTA_BOUNDS.1 ≤ round6 (clamp v DELTA_BOUNDS.1 DELTA_BOUNDS.2) ∧
      round6 (clamp v DELTA_BOUNDS.1 DELTA_BOUNDS.2) ≤ DELTA_BOUNDS.2 := by
  obtain ⟨hlo, hhi⟩ := delta_bounds_round6_fixed
  have hlt : DELTA_BOUNDS.1 ≤ DELTA_BOUNDS.2 := by
    norm_num [DELTA_BOUNDS, DELTA_BOUNDS_INT]
  constructor
  · calc DELTA_BOUNDS.1 = round6 DELTA_BOUNDS.1 := hlo.symm
      _ ≤ _ := round6_mono (le_clamp _ _ _)
  · calc round6 (clamp v DELTA_BOUNDS.1 DELTA_BOUNDS.2)
        ≤ round6 DELTA_BOUNDS.2 := round6_mono (clamp_le hlt)
      _ = DELTA_BOUNDS.2 := hhi

theorem normalize_scale_mem_bounds (p : Profile) (k : String) (hk : k ∈ SCALE_KEYS) :
    (SCALE_BOUNDS k).1 ≤ round6 (clamp (pget p k 1) (SCALE_BOUNDS k).1 (SCALE_BOUNDS k).2) ∧
      round6 (clamp (pget p k 1) (SCALE_BOUNDS k).1 (SCALE_BOUNDS k).2) ≤ (SCALE_BOUNDS k).2 :=
  round6_clamp_scale_mem (pget p k 1) k hk

theorem normalize_delta_mem_bounds (p : Profile) :
    DELTA_BOUNDS.1 ≤ round6 (clamp (pget p DELTA_KEY 0) DELTA_BOUNDS.1 DELTA_BOUNDS.2) ∧
      round6 (clamp (pget p DELTA_KEY 0) DELTA_BOUNDS.1 DELTA_BOUNDS.2) ≤ DELTA_BOUNDS.2 :=
  round6_clamp_delta_mem (pget p DELTA_KEY 0)

theorem normalize_profile_eq_shaped (p : Profile) :
    normalize_profile p = shaped (fun k => pget p k 1) (pget p DELTA_KEY 0) :=
  rfl

theorem shaped_pget_scale (g : String → ℚ) (d : ℚ) (k : String) (hk : k ∈ SCALE_KEYS) :
    pget (shaped g d) k 1 = round6 (clamp (g k) (SCALE_BOUNDS k).1 (SCALE_BOUNDS k).2) := by
  unfold pget shaped
  rw [lookup_map_append SCALE_KEYS _ _ k hk]
  rfl

theorem shaped_pget_delta (g : String → ℚ) (d : ℚ) :
    pget (shaped g d) DELTA_KEY 0 = round6 (clamp d DELTA_BOUNDS.1 DELTA_BOUNDS.2) := by
  unfold pget shaped
  rw [lookup_map_append_not_mem SCALE_KEYS _ _ DELTA_KEY delta_key_not_scale]
  simp [List.lookup]

/-- Clamp-then-round is idempotent at the scale intervals. -/
theorem round6_clamp_scale_idem (v : ℚ) (k : String) (hk : k ∈ SCALE_KEYS) :
    round6 (clamp (round6 (clamp v (SCALE_BOUNDS k).1 (SCALE_BOUNDS k).2))
      (SCALE_BOUNDS k).1 (SCALE_BOUNDS k).2) =
    round6 (clamp v (SCALE_BOUNDS k).1 (SCALE_BOUNDS k).2) := by
  obtain ⟨h1, h2⟩ := round6_clamp_scale_mem v k hk
  rw [clamp_eq_self h1 h2, round6_round6]

theorem round6_clamp_delta_idem (v : ℚ) :
    round6 (clamp (round6 (clamp v DELTA_BOUNDS.1 DELTA_BOUNDS.2))
      DELTA_BOUNDS.1 DELTA_BOUNDS.2) =
    round6 (clamp v DELTA_BOUNDS.1 DELTA_BOUNDS.2) := by
  obtain ⟨h1, h2⟩ := round6_clamp_delta_mem v
  rw [clamp_eq_self h1 h2, round6_round6]

/-- Pointwise-equal clamp-and-round values give equal shaped lists. -/
theorem shaped_congr {G H : String → ℚ} {D E : ℚ}
    (hs : ∀ k ∈ SCALE_KEYS,
      round6 (clamp (G k) (SCALE_BOUNDS k).1 (SCALE_BOUNDS k).2) =
      round6 (clamp (H k) (SCALE_BOUNDS k).1 (SCALE_BOUNDS k).2))
    (hd : round6 (clamp D DELTA_BOUNDS.1 DELTA_BOUNDS.2) =
      round6 (clamp E DELTA_BOUNDS.1 DELTA_BOUNDS.2)) :
    shaped G D = shaped H E := by
  unfold shaped
  rw [hd]
  congr 1
  apply List.map_congr_left
  intro k hk
  rw [hs k hk]

/-- Normalization fixes every normalize-shaped list. -/
theorem normalize_shaped (g : String → ℚ) (d : ℚ) :
    normalize_profile (shaped g d) = shaped g d := by
  show shaped (fun k => pget (shaped g d) k 1) (pget (shaped g d) DELTA_KEY 0) = shaped g d
  apply shaped_congr
  · intro k hk
    rw [shaped_pget_scale g d k hk]
    exact round6_clamp_scale_idem (g k) k hk
  · rw [shaped_pget_delta g d]
    exact round6_clamp_delta_idem d

/-- Normalization is idempotent. -/
theorem normalize_normalize (p : Profile) :
    normalize_profile (normalize_profile p) = normalize_profile p :=
  normalize_shaped (fun k => pget p k 1) (pget p DELTA_KEY 0)

/-- `blend_profiles` reduces to one normalize-shaped list: the outer
normalization collapses. -/
theorem blend_profiles_eq_shaped (a b : Profile) (alpha : ℚ) :
    blend_profiles a b alpha =
      shaped
        (fun k => pget a k 0 * clamp alpha 0 1 + pget b k 0 * (1 - clamp alpha 0 1))
        (pget a DELTA_KEY 0 * clamp alpha 0 1 + pget b DELTA_KEY 0 * (1 - clamp alpha 0 1)) := by
  unfold blend_profiles
  exact normalize_shaped _ _

/-- A profile is normalized when normalization fixes it.  Every profile the
optimizer stores (incumbent, candidates, anchors) has this shape. -/
def Normalized (p : Profile) : Prop :=
  normalize_profile p = p

theorem normalized_normalize (p : Profile) : Normalized (normalize_profile p) :=
  normalize_normalize p

/-- Values of a normalized profile are integer multiples of `10⁻⁶` and carry
all profile keys. -/
theorem normalized_lookup_scale {p : Profile} (h : Normalized p) {k : String}
    (hk : k ∈ SCALE_KEYS) :
    ∃ n : ℤ, List.lookup k p = some ((n : ℚ) / 1000000) := by
  rw [← h]
  rw [lookup_normalize_scale p k hk]
  obtain ⟨n, hn⟩ := round6_eq_div (clamp (pget p k 1) (SCALE_BOUNDS k).1 (SCALE_BOUNDS k).2)
  exact ⟨n, by rw [hn]⟩

theorem normalized_lookup_delta {p : Profile} (h : Normalized p) :
    ∃ n : ℤ, List.lookup DELTA_KEY p = some ((n : ℚ) / 1000000) := by
  rw [← h]
  rw [lookup_normalize_delta p]
  obtain ⟨n, hn⟩ := round6_eq_div (clamp (pget p DELTA_KEY 0) DELTA_BOUNDS.1 DELTA_BOUNDS.2)
  exact ⟨n, by rw [hn]⟩

theorem normalized_pget_micro {p : Profile} (h : Normalized p) {k : String}
    (hk : k ∈ PROFILE_KEYS) :
    ∃ n : ℤ, pget p k 0 = (n : ℚ) / 1000000 := by
  rcases List.mem_append.mp hk with hs | hd
  · obtain ⟨n, hn⟩ := normalized_lookup_scale h hs
    exact ⟨n, by unfold pget; rw [hn]; rfl⟩
  · have : k = DELTA_KEY := by simpa using hd
    subst this
    obtain ⟨n, hn⟩ := normalized_lookup_delta h
    exact ⟨n, by unfold pget; rw [hn]; rfl⟩

/-- Differences of micro-multiples are fixed by `round6`: the rounding inside
`profile_delta` is exact on normalized inputs. -/
theorem profile_delta_exact {a b : Profile} (ha : Normalized a) (hb : Normalized b)
    {k : String} (hk : k ∈ PROFILE_KEYS) :
    List.lookup k (profile_delta a b) = some (pget a k 0 - pget b k 0) := by
  have hlk : List.lookup k (profile_delta a b) =
      some (round6 (pget a k 0 - pget b k 0)) := by
    have h := lookup_map_append PROFILE_KEYS
      (fun k => round6 (pget a k 0 - pget b k 0)) [] k hk
    rw [List.append_nil] at h
    exact h
  obtain ⟨n, hn⟩ := normalized_pget_micro ha hk
  obtain ⟨m, hm⟩ := normalized_pget_micro hb hk
  have hdiff : pget a k 0 - pget b k 0 = ((n - m : ℤ) : ℚ) / 1000000 := by
    rw [hn, hm]
    push_cast
    ring
  rw [hlk, hdiff, round6_intCast_div]

/-! ### Claims C7 and C10: the Profile Model -/

/-- C7: `normalize` is idempotent — `normalize(normalize(p)) == normalize(p)` —
and in the normalized result every scale key's value lies in its declared
`[lo, hi]` interval and the delta value lies within the delta bounds. -/
theorem normalize_idempotent_and_bounded (p : Profile) :
    normalize_profile (normalize_profile p) = normalize_profile p ∧
    (∀ k ∈ SCALE_KEYS, ∃ v, List.lookup k (normalize_profile p) = some v ∧
      (SCALE_BOUNDS k).1 ≤ v ∧ v ≤ (SCALE_BOUNDS k).2) ∧
    (∃ v, List.lookup DELTA_KEY (normalize_profile p) = some v ∧
      DELTA_BOUNDS.1 ≤ v ∧ v ≤ DELTA_BOUNDS.2) := by
  refine ⟨normalize_normalize p, ?_, ?_⟩
  · intro k hk
    exact ⟨_, lookup_normalize_scale p k hk, normalize_scale_mem_bounds p k hk⟩
  · exact ⟨_, lookup_normalize_delta p, normalize_delta_mem_bounds p⟩

/-- Witness for C7 at the empty input profile and the first scale key. -/
theorem normalize_idempotent_and_bounded_witness :
    ∃ v, List.lookup "risk_weight_scale" (normalize_profile []) = some v ∧
      (SCALE_BOUNDS "risk_weight_scale").1 ≤ v ∧ v ≤ (SCALE_BOUNDS "risk_weight_scale").2 :=
  (normalize_idempotent_and_bounded []).2.1 "risk_weight_scale" (by decide)

/-- C10: normalization is total on every input mapping: it always produces all
18 scale keys plus the delta key, in that order; an absent scale key gets the
default `1.0`, an absent delta key the default `0.0`, each clamped into its
bound interval and rounded to six decimals. -/
theorem normalize_total_with_defaults (p : Profile) :
    (normalize_profile p).map Prod.fst = PROFILE_KEYS ∧
    (∀ k ∈ SCALE_KEYS, List.lookup k (normalize_profile p) =
      some (round6 (clamp (pget p k 1) (SCALE_BOUNDS k).1 (SCALE_BOUNDS k).2))) ∧
    List.lookup DELTA_KEY (normalize_profile p) =
      some (round6 (clamp (pget p DELTA_KEY 0) DELTA_BOUNDS.1 DELTA_BOUNDS.2)) ∧
    (∀ k ∈ SCALE_KEYS, List.lookup k p = none →
      List.lookup k (normalize_profile p) =
        some (round6 (clamp 1 (SCALE_BOUNDS k).1 (SCALE_BOUNDS k).2))) ∧
    (List.lookup DELTA_KEY p = none →
      List.lookup DELTA_KEY (normalize_profile p) =
        some (round6 (clamp 0 DELTA_BOUNDS.1 DELTA_BOUNDS.2))) := by
  refine ⟨?_, fun k hk => lookup_normalize_scale p k hk, lookup_normalize_delta p,
    ?_, ?_⟩
  · unfold normalize_profile shaped PROFILE_KEYS
    simp only [List.map_append, List.map_map, List.map_cons, List.map_nil]
    congr 1
  · intro k hk habs
    have : pget p k 1 = 1 := by unfold pget; rw [habs]; rfl
    rw [lookup_normalize_scale p k hk, this]
  · intro habs
    have : pget p DELTA_KEY 0 = 0 := by unfold pget; rw [habs]; rfl
    rw [lookup_normalize_delta p, this]

/-- Witness for C10 at the empty input profile and the first scale key. -/
theorem normalize_total_with_defaults_witness :
    List.lookup "risk_weight_scale" (normalize_profile []) =
      some (round6 (clamp 1 (SCALE_BOUNDS "risk_weight_scale").1
        (SCALE_BOUNDS "risk_weight_scale").2)) :=
  (normalize_total_with_defaults []).2.2.2.1 "risk_weight_scale" (by decide) rfl

/-! ### Evaluation results and the three selection metrics -/

/-- `CandidateResult` from the source (`out_dir` is dropped: it is an opaque
filesystem path that no compared or computed value depends on). -/
structure CandidateResult where
  iteration : ℕ
  candidate : ℕ
  strategy : String
  objective_value : Val
  avg_score : Val
  max_score : ℤ
  avg_frames : ℚ
  profile : Profile
deriving DecidableEq

/-- The `--selection-metric` choices accepted by `argparse`. -/
inductive Metric
  | objective
  | score
  | insane
deriving DecidableEq

/-- Python compares 4-tuples of floats lexicographically; `Lex` of nested
pairs over `WithBot ℚ` has exactly that order. -/
abbrev MetricTup : Type := Lex (Val × Lex (Val × Lex (Val × Val)))

/-- `metric_tuple` from the source: the ranking key for each metric
(`max_score` is converted to float; here, cast into `Val`). -/
def metric_tuple (row : CandidateResult) : Metric → MetricTup
  | .objective => toLex (row.objective_value, toLex (row.avg_score,
      toLex (((row.max_score : ℚ) : Val), ((row.avg_frames : ℚ) : Val))))
  | .score => toLex (row.avg_score, toLex (((row.max_score : ℚ) : Val),
      toLex (row.objective_value, ((row.avg_frames : ℚ) : Val))))
  | .insane => toLex (((row.max_score : ℚ) : Val), toLex (row.avg_score,
      toLex (row.objective_value, ((row.avg_frames : ℚ) : Val))))

/-- `better_than(left, right) = metric_tuple(left) > metric_tuple(right)`. -/
def better_than (left right : CandidateResult) (m : Metric) : Prop :=
  metric_tuple right m < metric_tuple left m

instance (left right : CandidateResult) (m : Metric) :
    Decidable (better_than left right m) := by
  unfold better_than
  infer_instance

/-- The failure sentinel recorded when the external process exits non-zero:
`(-inf, -inf, 0, 0.0)`. -/
def is_sentinel (r : CandidateResult) : Prop :=
  r.objective_value = ⊥ ∧ r.avg_score = ⊥ ∧ r.max_score = 0 ∧ r.avg_frames = 0

/-- A sentinel result never compares strictly greater than a result whose
parsed `avg_score` is a real number and whose `max_score` is non-negative —
i.e. than any successfully evaluated benchmark result. -/
theorem sentinel_never_outranks (m : Metric) (s r : CandidateResult)
    (hs : is_sentinel s) (havg : r.avg_score ≠ ⊥) (hmax : 0 ≤ r.max_score) :
    ¬ better_than s r m := by
  obtain ⟨ho, ha, hm, hf⟩ := hs
  intro hlt
  unfold better_than at hlt
  have hmq : ¬ ((r.max_score : ℚ) : Val) < (((0 : ℤ) : ℚ) : Val) := by
    rw [WithBot.coe_lt_coe]
    push_cast
    exact not_lt.mpr (by exact_mod_cast hmax)
  cases m with
  | objective =>
    simp only [metric_tuple, ho, ha, hm, hf, Prod.Lex.lt_iff] at hlt
    rcases hlt with h | ⟨_, h | ⟨h3, _⟩⟩
    · exact not_lt_bot h
    · exact not_lt_bot h
    · exact havg h3
  | score =>
    simp only [metric_tuple, ho, ha, hm, hf, Prod.Lex.lt_iff] at hlt
    rcases hlt with h | ⟨h3, _⟩
    · exact not_lt_bot h
    · exact havg h3
  | insane =>
    simp only [metric_tuple, ho, ha, hm, hf, Prod.Lex.lt_iff] at hlt
    rcases hlt with h | ⟨_, h | ⟨h3, _⟩⟩
    · exact hmq (by exact_mod_cast h)
    · exact not_lt_bot h
    · exact havg h3

/-! ### Ranking: Python's stable descending sort -/

/-- `a` may precede `b` in the leaderboard: its key is at least as large. -/
def rank_le (m : Metric) (a b : CandidateResult) : Prop :=
  metric_tuple b m ≤ metric_tuple a m

instance (m : Metric) : DecidableRel (rank_le m) := fun a b => by
  unfold rank_le
  infer_instance

instance (m : Metric) : IsTotal CandidateResult (rank_le m) :=
  ⟨fun a b => (le_total (metric_tuple b m) (metric_tuple a m)).imp id id⟩

instance (m : Metric) : IsTrans CandidateResult (rank_le m) :=
  ⟨fun _ _ _ hab hbc => le_trans hbc hab⟩

/-- `results.sort(key=metric_tuple, reverse=True)`: Python's sort is stable
and descending; a stable reordering by a total preorder is unique, so the
(stable) insertion sort below computes exactly the same list. -/
def rank (m : Metric) (results : List CandidateResult) : List CandidateResult :=
  results.insertionSort (rank_le m)

theorem rank_perm (m : Metric) (rs : List CandidateResult) :
    List.Perm (rank m rs) rs :=
  List.perm_insertionSort _ _

theorem rank_sorted (m : Metric) (rs : List CandidateResult) :
    List.Sorted (rank_le m) (rank m rs) :=
  List.sorted_insertionSort _ _

/-- The head of the leaderboard is a maximum of the evaluated results. -/
theorem rank_head_max (m : Metric) (rs : List CandidateResult)
    {w : CandidateResult} {rest : List CandidateResult} (h : rank m rs = w :: rest) :
    ∀ r ∈ rs, metric_tuple r m ≤ metric_tuple w m := by
  intro r hr
  have hmem : r ∈ rank m rs := (rank_perm m rs).mem_iff.mpr hr
  rw [h] at hmem
  rcases List.mem_cons.mp hmem with rfl | hmem
  · exact le_refl _
  · have hs := rank_sorted m rs
    rw [h] at hs
    exact List.rel_of_sorted_cons hs r hmem

/-- The head of the leaderboard is one of the evaluated results. -/
theorem rank_head_mem (m : Metric) (rs : List CandidateResult)
    {w : CandidateResult} {rest : List CandidateResult} (h : rank m rs = w :: rest) :
    w ∈ rs := by
  have : w ∈ rank m rs := by
    rw [h]
    exact List.mem_cons_self _ _
  exact (rank_perm m rs).mem_iff.mp this

/-! ### Candidate generation state: `push_candidate` and the `seen` set -/

/-- The per-iteration generation state: `candidate_specs` and the `seen`
signature set (a Python `set[str]`, modelled as a duplicate-free list). -/
structure GenState where
  specs : List (Profile × String)
  seen : List Profile
deriving DecidableEq

/-- `push_candidate(profile, strategy)` from the source: normalize, take the
signature, reject if already seen this iteration, else append. -/
def push_candidate (g : GenState) (profile : Profile) (strategy : String) :
    GenState × Bool :=
  if profile_signature (normalize_profile profile) ∈ g.seen then (g, false)
  else ({ specs := g.specs ++ [(normalize_profile profile, strategy)],
          seen := profile_signature (normalize_profile profile) :: g.seen }, true)

/-- Generation-state invariant: every accepted candidate's signature has been
recorded in `seen`, and accepted signatures are pairwise distinct. -/
def GoodGen (g : GenState) : Prop :=
  (∀ sp ∈ g.specs, profile_signature sp.1 ∈ g.seen) ∧
  (g.specs.map (fun sp => profile_signature sp.1)).Nodup

theorem goodGen_empty : GoodGen ⟨[], []⟩ := by
  constructor
  · intro sp hsp
    cases hsp
  · exact List.nodup_nil

theorem push_candidate_preserves (g : GenState) (p : Profile) (s : String)
    (h : GoodGen g) : GoodGen (push_candidate g p s).1 := by
  unfold push_candidate
  by_cases hmem : profile_signature (normalize_profile p) ∈ g.seen
  · simp only [hmem, if_pos]
    exact h
  · simp only [hmem, if_neg, not_false_iff]
    constructor
    · intro sp hsp
      rcases List.mem_append.mp hsp with h1 | h2
      · exact List.mem_cons_of_mem _ (h.1 sp h1)
      · have hsp2 : sp = (normalize_profile p, s) := by simpa using h2
        subst hsp2
        exact List.mem_cons_self _ _
    · rw [List.map_append]
      rw [List.nodup_append]
      refine ⟨h.2, List.nodup_singleton _, ?_⟩
      intro x hx hx2
      have : x = profile_signature (normalize_profile p) := by simpa using hx2
      subst this
      obtain ⟨sp, hsp, hspx⟩ := List.mem_map.mp hx
      exact hmem (hspx ▸ h.1 sp hsp)

/-- Folding a whole proposal stream through `push_candidate`, as the
generation phase of one iteration does. -/
def gen_fold (g : GenState) (proposals : List (Profile × String)) : GenState :=
  proposals.foldl (fun g ps => (push_candidate g ps.1 ps.2).1) g

theorem gen_fold_preserves (proposals : List (Profile × String)) :
    ∀ g : GenState, GoodGen g → GoodGen (gen_fold g proposals) := by
  induction proposals with
  | nil => exact fun g h => h
  | cons ps rest ih =>
    intro g h
    exact ih _ (push_candidate_preserves g ps.1 ps.2 h)

/-! ### Anchor collection -/

/-- The anchor-construction loop (lines 443-449): for each existing anchor
source, load and normalize its profile and skip it when its signature equals
the incumbent's signature. -/
def filter_anchors (pairs : List (String × Profile)) (incumbent_sig : Profile) :
    List (String × Profile) :=
  pairs.filterMap (fun lp =>
    if profile_signature (normalize_profile lp.2) = incumbent_sig then none
    else some (lp.1, normalize_profile lp.2))

theorem filter_anchors_sound (pairs : List (String × Profile))
    (isig : Profile) (l : String) (q : Profile)
    (h : (l, q) ∈ filter_anchors pairs isig) :
    profile_signature q ≠ isig ∧ Normalized q ∧
      ∃ p, (l, p) ∈ pairs ∧ q = normalize_profile p := by
  obtain ⟨lp, hlp, hf⟩ := List.mem_filterMap.mp h
  by_cases hsig : profile_signature (normalize_profile lp.2) = isig
  · rw [if_pos hsig] at hf
    cases hf
  · rw [if_neg hsig] at hf
    have hp : (lp.1, normalize_profile lp.2) = (l, q) := Option.some.inj hf
    have hl : lp.1 = l := congrArg Prod.fst hp
    have hq : normalize_profile lp.2 = q := congrArg Prod.snd hp
    refine ⟨?_, ?_, lp.2, ?_, hq.symm⟩
    · rw [← hq]
      exact hsig
    · rw [← hq]
      exact normalized_normalize lp.2
    · rw [← hl]
      exact hlp

theorem filter_anchors_complete (pairs : List (String × Profile))
    (isig : Profile) (l : String) (p : Profile)
    (hmem : (l, p) ∈ pairs)
    (hsig : profile_signature (normalize_profile p) ≠ isig) :
    (l, normalize_profile p) ∈ filter_anchors pairs isig := by
  apply List.mem_filterMap.mpr
  exact ⟨(l, p), hmem, by simp [hsig]⟩

/-! ### Benchmark oracle adapter -/

/-- One parsed `bot_rankings` entry:
`(bot_id, (objective_value, avg_score, max_score, avg_frames))`. -/
abbrev Ranking : Type := String × (Val × Val × ℤ × ℚ)

/-- Outcome of one external benchmark process invocation: a non-zero exit, or
a summary whose `bot_rankings` parsed as the given entries. -/
inductive OracleOutcome
  | crashed
  | ok (rankings : List Ranking)

/-- The fatal (uncaught) failures `main` can raise. -/
inductive Fatal
  | badIterations
  | badCandidates
  | badMaxFrames
  | seedsMissing
  | baseMissing
  | startMissing
  | buildFailed
  | genExhausted
  | botMissing
  | emptyResults
  | noIncumbent
  | noCandidates
deriving DecidableEq

/-- The `bot_rankings` scan in `benchmark_profile`: first entry whose
`bot_id` equals the target bot. -/
def find_ranking (bot : String) (rankings : List Ranking) :
    Option (Val × Val × ℤ × ℚ) :=
  (rankings.find? (fun item => item.1 == bot)).map (fun item => item.2)

/-- `benchmark_profile` composed with the caller's
`except subprocess.CalledProcessError` handler: a crashed process yields the
failure sentinel `(-inf, -inf, 0, 0.0)`; a successful run whose summary lacks
the target bot raises a `RuntimeError`, which the caller does not catch. -/
def eval_candidate (bot : String) (outcome : OracleOutcome) :
    Except Fatal (Val × Val × ℤ × ℚ) :=
  match outcome with
  | .crashed => .ok (⊥, ⊥, 0, 0)
  | .ok rankings =>
    match find_ranking bot rankings with
    | none => .error .botMissing
    | some v => .ok v

/-- The per-candidate evaluation loop (lines 574-617): write the candidate to
the active-profile file, invoke the benchmark, and record a
`CandidateResult`; the active file retains the last written candidate. -/
def eval_fold (bot : String) (iteration : ℕ) (oracle : ℕ → OracleOutcome) :
    List (Profile × String) → ℕ → Profile → List CandidateResult →
    Except Fatal (List CandidateResult × Profile)
  | [], _, active, acc => .ok (acc, active)
  | (profile, strategy) :: rest, idx, _, acc =>
    match eval_candidate bot (oracle idx) with
    | .error e => .error e
    | .ok (objective, avg_score, max_score, avg_frames) =>
      eval_fold bot iteration oracle rest (idx + 1) profile
        (acc ++ [{ iteration := iteration
                 , candidate := idx
                 , strategy := strategy
                 , objective_value := objective
                 , avg_score := avg_score
                 , max_score := max_score
                 , avg_frames := avg_frames
                 , profile := profile }])

/-- With every oracle call crashing, evaluation completes (the session does
not abort) and every newly recorded result is the failure sentinel. -/
theorem eval_fold_all_crashed (bot : String) (iteration : ℕ)
    (oracle : ℕ → OracleOutcome) (hc : ∀ j, oracle j = .crashed) :
    ∀ (specs : List (Profile × String)) (idx : ℕ) (active : Profile)
      (acc : List CandidateResult),
      ∃ results active2,
        eval_fold bot iteration oracle specs idx active acc = .ok (results, active2) ∧
        ∀ r ∈ results, r ∈ acc ∨ is_sentinel r := by
  intro specs
  induction specs with
  | nil =>
    intro idx active acc
    exact ⟨acc, active, rfl, fun r hr => Or.inl hr⟩
  | cons ps rest ih =>
    intro idx active acc
    obtain ⟨profile, strategy⟩ := ps
    obtain ⟨results, active2, heq, hmem⟩ :=
      ih (idx + 1) profile
        (acc ++ [{ iteration := iteration, candidate := idx, strategy := strategy
                 , objective_value := ⊥, avg_score := ⊥, max_score := 0
                 , avg_frames := 0, profile := profile }])
    refine ⟨results, active2, ?_, ?_⟩
    · show eval_fold bot iteration oracle ((profile, strategy) :: rest) idx active acc =
        .ok (results, active2)
      unfold eval_fold
      rw [hc idx]
      exact heq
    · intro r hr
      rcases hmem r hr with hacc | hsent
      · rcases List.mem_append.mp hacc with h1 | h2
        · exact Or.inl h1
        · refine Or.inr ?_
          have : r = { iteration := iteration, candidate := idx, strategy := strategy
                     , objective_value := ⊥, avg_score := ⊥, max_score := 0
                     , avg_frames := 0, profile := profile } := by simpa using h2
          subst this
          exact ⟨rfl, rfl, rfl, rfl⟩
      · exact Or.inr hsent

/-- A missing target bot in a successful summary aborts evaluation with the
fatal error at the offending candidate, recording nothing. -/
theorem eval_fold_bot_missing (bot : String) (iteration : ℕ)
    (oracle : ℕ → OracleOutcome) (profile : Profile) (strategy : String)
    (rest : List (Profile × String)) (idx : ℕ) (active : Profile)
    (acc : List CandidateResult) (rankings : List Ranking)
    (hout : oracle idx = .ok rankings)
    (hmiss : find_ranking bot rankings = none) :
    eval_fold bot iteration oracle ((profile, strategy) :: rest) idx active acc =
      .error .botMissing := by
  have h1 : eval_candidate bot (oracle idx) = .error .botMissing := by
    rw [hout]
    show (match find_ranking bot rankings with
          | none => Except.error Fatal.botMissing
          | some v => Except.ok v) = Except.error Fatal.botMissing
    rw [hmiss]
  unfold eval_fold
  rw [h1]

/-! ### Selection and adaptation (lines 619-641) -/

/-- The optimizer state carried across iterations, together with the shared
active-profile resource content and the log of all evaluated results. -/
structure LoopState where
  incumbent : Profile
  momentum : Option Profile
  last_gain_anchor : Option Profile
  stagnation_count : ℕ
  global_best : Option CandidateResult
  global_best_profile : Profile
  active : Profile
  results_log : List CandidateResult

/-- Lines 628-635: on improvement replace the incumbent by the winner's
profile, set momentum to the per-key delta, archive the previous incumbent as
the last-gain anchor and reset stagnation; otherwise only increment the
stagnation counter. -/
def adapt (m : Metric) (st : LoopState) (winner incumbent_result : CandidateResult) :
    LoopState :=
  if better_than winner incumbent_result m then
    { st with incumbent := winner.profile
            , momentum := some (profile_delta winner.profile st.incumbent)
            , last_gain_anchor := some st.incumbent
            , stagnation_count := 0 }
  else
    { st with stagnation_count := st.stagnation_count + 1 }

/-- Lines 637-641: replace the global best when unset or strictly beaten. -/
def gb_update (m : Metric) (winner : CandidateResult)
    (old_gb : Option CandidateResult) (st1 : LoopState) : LoopState :=
  match old_gb with
  | none => { st1 with global_best := some winner
                     , global_best_profile := winner.profile }
  | some gb =>
    if better_than winner gb m then
      { st1 with global_best := some winner
               , global_best_profile := winner.profile }
    else st1

def select_core (m : Metric) (st : LoopState) (winner incumbent_result : CandidateResult) :
    LoopState :=
  gb_update m winner st.global_best (adapt m st winner incumbent_result)

/-- Lines 619-641: sort the results (descending, stable), take the winner,
find the incumbent carry-over row in the sorted list, then adapt the state
and update the global best.  An empty result list (`results[0]`) or a missing
incumbent row (`next(...)`) would raise; both are unreachable in a session
because the incumbent is always pushed first and `candidates ≥ 2`. -/
def select_update (m : Metric) (st : LoopState) (results : List CandidateResult) :
    Except Fatal LoopState :=
  match rank m results with
  | [] => .error .emptyResults
  | winner :: rest =>
    match (winner :: rest).find? (fun r => r.strategy == "incumbent") with
    | none => .error .noIncumbent
    | some incumbent_result => .ok (select_core m st winner incumbent_result)

theorem select_update_spec (m : Metric) (st : LoopState)
    (results : List CandidateResult) {winner : CandidateResult}
    {rest : List CandidateResult} {ir : CandidateResult}
    (hrank : rank m results = winner :: rest)
    (hfind : (winner :: rest).find? (fun r => r.strategy == "incumbent") = some ir) :
    select_update m st results = .ok (select_core m st winner ir) := by
  unfold select_update
  rw [hrank]
  show (match (winner :: rest).find? (fun r => r.strategy == "incumbent") with
        | none => Except.error Fatal.noIncumbent
        | some incumbent_result => Except.ok (select_core m st winner incumbent_result)) =
    Except.ok (select_core m st winner ir)
  rw [hfind]

theorem select_update_empty (m : Metric) (st : LoopState)
    (results : List CandidateResult) (hrank : rank m results = []) :
    select_update m st results = .error .emptyResults := by
  unfold select_update
  rw [hrank]

theorem select_update_no_incumbent (m : Metric) (st : LoopState)
    (results : List CandidateResult) {winner : CandidateResult}
    {rest : List CandidateResult}
    (hrank : rank m results = winner :: rest)
    (hfind : (winner :: rest).find? (fun r => r.strategy == "incumbent") = none) :
    select_update m st results = .error .noIncumbent := by
  unfold select_update
  rw [hrank]
  show (match (winner :: rest).find? (fun r => r.strategy == "incumbent") with
        | none => Except.error Fatal.noIncumbent
        | some incumbent_result => Except.ok (select_core m st winner incumbent_result)) =
    Except.error Fatal.noIncumbent
  rw [hfind]

/-- `select_update` only succeeds through `select_core`. -/
theorem select_update_ok (m : Metric) (st : LoopState)
    (results : List CandidateResult) {st' : LoopState}
    (h : select_update m st results = .ok st') :
    ∃ winner rest ir, rank m results = winner :: rest ∧
      (winner :: rest).find? (fun r => r.strategy == "incumbent") = some ir ∧
      st' = select_core m st winner ir := by
  rcases hrank : rank m results with _ | ⟨winner, rest⟩
  · rw [select_update_empty m st results hrank] at h
    cases h
  · rcases hfind : (winner :: rest).find? (fun r => r.strategy == "incumbent") with _ | ir
    · rw [select_update_no_incumbent m st results hrank hfind] at h
      cases h
    · rw [select_update_spec m st results hrank hfind] at h
      exact ⟨winner, rest, ir, rfl, hfind, (Except.ok.inj h).symm⟩

theorem adapt_non_improved (m : Metric) (st : LoopState) (winner ir : CandidateResult)
    (hni : ¬ better_than winner ir m) :
    adapt m st winner ir = { st with stagnation_count := st.stagnation_count + 1 } :=
  if_neg hni

theorem adapt_improved (m : Metric) (st : LoopState) (winner ir : CandidateResult)
    (himp : better_than winner ir m) :
    adapt m st winner ir =
      { st with incumbent := winner.profile
              , momentum := some (profile_delta winner.profile st.incumbent)
              , last_gain_anchor := some st.incumbent
              , stagnation_count := 0 } :=
  if_pos himp

/-- The global-best update never touches the search-adaptation fields. -/
theorem gb_update_preserves (m : Metric) (winner : CandidateResult)
    (og : Option CandidateResult) (st1 : LoopState) :
    (gb_update m winner og st1).incumbent = st1.incumbent ∧
    (gb_update m winner og st1).momentum = st1.momentum ∧
    (gb_update m winner og st1).last_gain_anchor = st1.last_gain_anchor ∧
    (gb_update m winner og st1).stagnation_count = st1.stagnation_count ∧
    (gb_update m winner og st1).active = st1.active ∧
    (gb_update m winner og st1).results_log = st1.results_log := by
  cases og with
  | none => exact ⟨rfl, rfl, rfl, rfl, rfl, rfl⟩
  | some gb =>
    by_cases h : better_than winner gb m <;> simp [gb_update, h]

/-- After the update, the global best is at least the winner and at least the
previous global best, and is either one of them. -/
theorem gb_update_best (m : Metric) (winner : CandidateResult)
    (og : Option CandidateResult) (st1 : LoopState)
    (hog : st1.global_best = og) :
    ∃ gb', (gb_update m winner og st1).global_best = some gb' ∧
      metric_tuple winner m ≤ metric_tuple gb' m ∧
      (∀ gb, og = some gb → metric_tuple gb m ≤ metric_tuple gb' m) ∧
      (gb' = winner ∧ (gb_update m winner og st1).global_best_profile = winner.profile ∨
        og = some gb' ∧
          (gb_update m winner og st1).global_best_profile = st1.global_best_profile) := by
  cases og with
  | none =>
    refine ⟨winner, rfl, le_refl _, ?_, Or.inl ⟨rfl, rfl⟩⟩
    intro gb h
    exact Option.noConfusion h
  | some gb =>
    by_cases h : better_than winner gb m
    · refine ⟨winner, ?_, le_refl _, ?_, Or.inl ⟨rfl, ?_⟩⟩
      · simp only [gb_update, if_pos h]
      · intro gb2 hgb2
        cases Option.some.inj hgb2
        exact le_of_lt h
      · simp only [gb_update, if_pos h]
    · refine ⟨gb, ?_, not_lt.mp h, ?_, Or.inr ⟨rfl, ?_⟩⟩
      · simp only [gb_update, if_neg h]
        exact hog
      · intro gb2 hgb2
        cases Option.some.inj hgb2
        exact le_refl _
      · simp only [gb_update, if_neg h]

/-! ### One iteration and the session loop -/

/-- The rng-driven proposal stream of one iteration (all strategy proposals in
generation order) together with the oracle's outcome for each evaluated
candidate index. -/
structure IterInput where
  proposals : List (Profile × String)
  oracle : ℕ → OracleOutcome

/-- The guarded strategy/mutation pushes: each push site first checks
`len(candidate_specs) < args.candidates`; the attempt budget is the length of
the proposal stream. -/
def gen_take (cands : ℕ) : GenState → List (Profile × String) → GenState
  | g, [] => g
  | g, ps :: rest =>
    if cands ≤ g.specs.length then g
    else gen_take cands (push_candidate g ps.1 ps.2).1 rest

/-- Candidate generation for one iteration: the unguarded incumbent push
(line 482) followed by the guarded proposal pushes. -/
def generate_candidates (cands : ℕ) (incumbent : Profile)
    (proposals : List (Profile × String)) : GenState :=
  gen_take cands (push_candidate ⟨[], []⟩ incumbent "incumbent").1 proposals

theorem gen_take_preserves (cands : ℕ) (proposals : List (Profile × String)) :
    ∀ g : GenState, GoodGen g → GoodGen (gen_take cands g proposals) := by
  induction proposals with
  | nil => exact fun g h => h
  | cons ps rest ih =>
    intro g h
    unfold gen_take
    by_cases hlen : cands ≤ g.specs.length
    · rw [if_pos hlen]
      exact h
    · rw [if_neg hlen]
      exact ih _ (push_candidate_preserves g ps.1 ps.2 h)

theorem generate_candidates_good (cands : ℕ) (incumbent : Profile)
    (proposals : List (Profile × String)) :
    GoodGen (generate_candidates cands incumbent proposals) :=
  gen_take_preserves cands proposals _
    (push_candidate_preserves ⟨[], []⟩ incumbent "incumbent" goodGen_empty)

/-- One loop iteration (lines 463-668): generate candidates, fail when the
attempt budget leaves fewer than `candidates` distinct ones, evaluate each
(overwriting the active profile first), then rank and adapt. -/
def iter_step (m : Metric) (bot : String) (cands : ℕ) (iteration : ℕ)
    (st : LoopState) (inp : IterInput) : Except Fatal LoopState :=
  if (generate_candidates cands st.incumbent inp.proposals).specs.length < cands then
    .error .genExhausted
  else
    match eval_fold bot iteration inp.oracle
        (generate_candidates cands st.incumbent inp.proposals).specs 0 st.active [] with
    | .error e => .error e
    | .ok (results, active2) =>
      match select_update m { st with active := active2 } results with
      | .error e => .error e
      | .ok st2 => .ok { st2 with results_log := st.results_log ++ results }

/-- The session loop: iterations `iteration, iteration+1, ...` for `rem` more
iterations. -/
def run_iters (m : Metric) (bot : String) (cands : ℕ) (inputs : ℕ → IterInput) :
    ℕ → ℕ → LoopState → Except Fatal LoopState
  | _, 0, st => .ok st
  | iteration, rem + 1, st =>
    match iter_step m bot cands iteration st (inputs iteration) with
    | .error e => .error e
    | .ok st2 => run_iters m bot cands inputs (iteration + 1) rem st2

theorem adapt_gb_fields (m : Metric) (st : LoopState) (winner ir : CandidateResult) :
    (adapt m st winner ir).global_best = st.global_best ∧
    (adapt m st winner ir).global_best_profile = st.global_best_profile ∧
    (adapt m st winner ir).results_log = st.results_log := by
  by_cases h : better_than winner ir m <;> simp [adapt, h]

/-- A successful `iter_step` decomposes into a successful evaluation pass, a
nonempty leaderboard with an incumbent row, and the selection update with the
iteration's results appended to the log. -/
theorem iter_step_ok (m : Metric) (bot : String) (cands : ℕ) (iteration : ℕ)
    (st : LoopState) (inp : IterInput) {st' : LoopState}
    (h : iter_step m bot cands iteration st inp = .ok st') :
    ∃ results active2 winner rest ir,
      eval_fold bot iteration inp.oracle
        (generate_candidates cands st.incumbent inp.proposals).specs 0 st.active [] =
          .ok (results, active2) ∧
      rank m results = winner :: rest ∧
      (winner :: rest).find? (fun r => r.strategy == "incumbent") = some ir ∧
      st' = { select_core m { st with active := active2 } winner ir with
                results_log := st.results_log ++ results } := by
  unfold iter_step at h
  by_cases hlen : (generate_candidates cands st.incumbent inp.proposals).specs.length < cands
  · rw [if_pos hlen] at h
    cases h
  · rw [if_neg hlen] at h
    rcases heval : eval_fold bot iteration inp.oracle
        (generate_candidates cands st.incumbent inp.proposals).specs 0 st.active [] with
      e | pair
    · rw [heval] at h
      exact Except.noConfusion h
    · obtain ⟨results, active2⟩ := pair
      rw [heval] at h
      have h2 : (match select_update m { st with active := active2 } results with
                 | Except.error e => Except.error e
                 | Except.ok st2 =>
                     Except.ok { st2 with results_log := st.results_log ++ results }) =
          Except.ok st' := h
      rcases hsel : select_update m { st with active := active2 } results with e | st2
      · rw [hsel] at h2
        exact Except.noConfusion h2
      · rw [hsel] at h2
        obtain ⟨winner, rest, ir, hrank, hfind, hst2⟩ := select_update_ok _ _ _ hsel
        subst hst2
        exact ⟨results, active2, winner, rest, ir, rfl, hrank, hfind,
          (Except.ok.inj h2).symm⟩

/-- The global-best invariant: when set, the global best is one of the logged
results, is maximal among them under the active metric, and
`global_best_profile` is exactly its profile; when unset, nothing has been
evaluated. -/
def GB_inv (m : Metric) (st : LoopState) : Prop :=
  match st.global_best with
  | none => st.results_log = []
  | some gb => gb ∈ st.results_log ∧
      (∀ r ∈ st.results_log, metric_tuple r m ≤ metric_tuple gb m) ∧
      st.global_best_profile = gb.profile

theorem iter_step_gb_inv (m : Metric) (bot : String) (cands : ℕ) (iteration : ℕ)
    (st : LoopState) (inp : IterInput) {st' : LoopState}
    (hstep : iter_step m bot cands iteration st inp = .ok st')
    (hinv : GB_inv m st) : GB_inv m st' := by
  obtain ⟨results, active2, winner, rest, ir, _, hrank, _, hst'⟩ :=
    iter_step_ok m bot cands iteration st inp hstep
  have hwmem : winner ∈ results := rank_head_mem m results hrank
  have hwmax : ∀ r ∈ results, metric_tuple r m ≤ metric_tuple winner m :=
    rank_head_max m results hrank
  obtain ⟨h1gb, h1gbp, h1log⟩ :=
    adapt_gb_fields m { st with active := active2 } winner ir
  obtain ⟨gb', hgb', hwle, hogle, hcase⟩ :=
    gb_update_best m winner ({ st with active := active2 } : LoopState).global_best
      (adapt m { st with active := active2 } winner ir) h1gb
  subst hst'
  unfold GB_inv
  have hstgb : ({ st with active := active2 } : LoopState).global_best =
      st.global_best := rfl
  rw [show ({ select_core m { st with active := active2 } winner ir with
        results_log := st.results_log ++ results } : LoopState).global_best =
      (select_core m { st with active := active2 } winner ir).global_best from rfl]
  rw [show (select_core m { st with active := active2 } winner ir).global_best =
      some gb' from hgb']
  refine ⟨?_, ?_, ?_⟩
  · -- membership of the new global best in the extended log
    rcases hcase with ⟨hw, _⟩ | ⟨hog, _⟩
    · subst hw
      exact List.mem_append.mpr (Or.inr hwmem)
    · rw [hstgb] at hog
      unfold GB_inv at hinv
      rw [hog] at hinv
      exact List.mem_append.mpr (Or.inl hinv.1)
  · -- maximality over the extended log
    intro r hr
    rcases List.mem_append.mp hr with hrold | hrnew
    · unfold GB_inv at hinv
      rcases hgbo : st.global_best with _ | gb0
      · rw [hgbo] at hinv
        rw [hinv] at hrold
        cases hrold
      · rw [hgbo] at hinv
        have h1 : metric_tuple r m ≤ metric_tuple gb0 m := hinv.2.1 r hrold
        have h2 : metric_tuple gb0 m ≤ metric_tuple gb' m := by
          apply hogle
          rw [hstgb, hgbo]
        exact le_trans h1 h2
    · exact le_trans (hwmax r hrnew) hwle
  · -- the committed champion profile equals the global best's profile
    rcases hcase with ⟨hw, hprof⟩ | ⟨hog, hprof⟩
    · subst hw
      exact hprof
    · rw [hstgb] at hog
      unfold GB_inv at hinv
      rw [hog] at hinv
      calc ({ select_core m { st with active := active2 } winner ir with
              results_log := st.results_log ++ results } : LoopState).global_best_profile
          = (select_core m { st with active := active2 } winner ir).global_best_profile :=
            rfl
        _ = (adapt m { st with active := active2 } winner ir).global_best_profile := hprof
        _ = st.global_best_profile := h1gbp
        _ = gb'.profile := hinv.2.2

/-- A successful iteration never decreases the global best under the active
metric. -/
theorem iter_step_gb_mono (m : Metric) (bot : String) (cands : ℕ) (iteration : ℕ)
    (st : LoopState) (inp : IterInput) {st' : LoopState}
    (hstep : iter_step m bot cands iteration st inp = .ok st')
    (gb : CandidateResult) (hgb : st.global_best = some gb) :
    ∃ gb', st'.global_best = some gb' ∧
      metric_tuple gb m ≤ metric_tuple gb' m := by
  obtain ⟨results, active2, winner, rest, ir, _, _, _, hst'⟩ :=
    iter_step_ok m bot cands iteration st inp hstep
  obtain ⟨h1gb, _, _⟩ := adapt_gb_fields m { st with active := active2 } winner ir
  obtain ⟨gb', hgb', _, hogle, _⟩ :=
    gb_update_best m winner ({ st with active := active2 } : LoopState).global_best
      (adapt m { st with active := active2 } winner ir) h1gb
  subst hst'
  refine ⟨gb', hgb', ?_⟩
  apply hogle
  exact hgb

/-! ### `main`: configuration, filesystem world, and the session state machine -/

/-- The `--install-mode` choices. -/
inductive InstallMode
  | champion
  | restore
deriving DecidableEq

/-- The `--anchor-mode` choices. -/
inductive AnchorMode
  | all
  | core
deriving DecidableEq

/-- Validated command-line configuration (`parse_args`). -/
structure Config where
  iterations : ℤ
  candidates : ℤ
  max_frames : ℤ
  bot : String
  install_mode : InstallMode
  anchor_mode : AnchorMode
  selection_metric : Metric
  has_start_profile : Bool

/-- The parts of the outside world `main` reads: which files exist and what
they parse to, whether the binary builds, and each iteration's rng-driven
proposal stream plus oracle outcomes. -/
structure World where
  seeds_exists : Bool
  base : Option Profile
  champion : Option Profile
  active : Option Profile
  start_profile : Option Profile
  archived : List (String × Profile)
  buildOk : Bool
  inputs : ℕ → IterInput

/-- Lines 398-400: when the active-profile file is absent, seed it from the
champion (if present) else the base profile, normalized.  Otherwise the file
keeps its raw (possibly unnormalized) pre-session content. -/
def seeded_profile (w : World) (base : Profile) : Profile :=
  match w.active with
  | some raw => raw
  | none => normalize_profile (match w.champion with
      | some c => c
      | none => base)

/-- Lines 410-420: resolve the starting profile source. -/
def start_source (cfg : Config) (w : World) (base : Profile) : Except Fatal Profile :=
  if cfg.has_start_profile then
    match w.start_profile with
    | none => .error .startMissing
    | some sp => .ok sp
  else .ok (match w.champion with
    | some c => c
    | none => base)

/-- Lines 427-441: the existence-filtered anchor source list — base, then
champion when present, then (in `all` mode) the deduplicated
`champion-*.json` archives. -/
def anchor_sources (cfg : Config) (w : World) (base : Profile) :
    List (String × Profile) :=
  [("base", base)] ++
  (match w.champion with
   | some c => [("champion", c)]
   | none => []) ++
  (match cfg.anchor_mode with
   | .all => w.archived
   | .core => [])

/-- The state established before the `try` block: the (possibly seeded)
active-profile content, the normalized pre-session snapshot, the normalized
starting incumbent, and the filtered anchor set. -/
structure InitState where
  seeded_active : Profile
  old_profile : Profile
  incumbent : Profile
  anchors : List (String × Profile)

/-- The `InitState` reached when initialization succeeds with base profile
`base` and resolved starting profile `startP`. -/
def init_ok (cfg : Config) (w : World) (base startP : Profile) : InitState :=
  { seeded_active := seeded_profile w base
  , old_profile := normalize_profile (seeded_profile w base)
  , incumbent := normalize_profile startP
  , anchors := filter_anchors (anchor_sources cfg w base)
      (profile_signature (normalize_profile startP)) }

/-- Lines 375-459: validation, seeding, snapshot, start resolution, anchor
construction and binary build — everything before the `try`.  On error the
second component records the active-profile file content at that moment:
failures here happen before any rollback protection exists. -/
def main_init (cfg : Config) (w : World) : Except (Fatal × Option Profile) InitState :=
  if cfg.iterations < 1 then .error (.badIterations, w.active)
  else if cfg.candidates < 2 then .error (.badCandidates, w.active)
  else if cfg.max_frames < 1 then .error (.badMaxFrames, w.active)
  else if w.seeds_exists = false then .error (.seedsMissing, w.active)
  else
    match w.base with
    | none => .error (.baseMissing, w.active)
    | some base =>
      match start_source cfg w base with
      | .error e => .error (e, some (seeded_profile w base))
      | .ok startP =>
        if w.buildOk = false then .error (.buildFailed, some (seeded_profile w base))
        else .ok (init_ok cfg w base startP)

/-- The loop state at the top of the `try` block (lines 422-453). -/
def init_loop_state (is : InitState) : LoopState :=
  { incumbent := is.incumbent
  , momentum := none
  , last_gain_anchor := none
  , stagnation_count := 0
  , global_best := none
  , global_best_profile := is.incumbent
  , active := is.seeded_active
  , results_log := [] }

/-- Observable outcome of one `main` run. -/
structure RunResult where
  exit : Except Fatal Unit
  active : Option Profile
  champion_file : Option Profile
  session_champion : Option Profile
  summary_champion : Option Profile
  final : Option LoopState

/-- Lines 670-715: after the loop, fail when nothing was evaluated, else
commit the champion (session copy and shared `champion.json`), write the
summary, apply the install policy and exit 0. -/
def main_finalize (cfg : Config) (w : World) (is : InitState) (st : LoopState) :
    RunResult :=
  match st.global_best with
  | none =>
    { exit := .error .noCandidates, active := some is.old_profile
    , champion_file := w.champion, session_champion := none
    , summary_champion := none, final := some st }
  | some _ =>
    { exit := .ok ()
    , active := some (match cfg.install_mode with
        | .champion => st.global_best_profile
        | .restore => is.old_profile)
    , champion_file := some st.global_best_profile
    , session_champion := some st.global_best_profile
    , summary_champion := some st.global_best_profile
    , final := some st }

/-- The `try` body plus the `finally` clause: any error inside restores the
normalized pre-session snapshot and surfaces as a non-zero exit. -/
def main_body (cfg : Config) (w : World) (is : InitState) : RunResult :=
  match run_iters cfg.selection_metric cfg.bot cfg.candidates.toNat w.inputs 1
      cfg.iterations.toNat (init_loop_state is) with
  | .error e =>
    { exit := .error e, active := some is.old_profile, champion_file := w.champion
    , session_champion := none, summary_champion := none, final := none }
  | .ok st => main_finalize cfg w is st

/-- `main`: init, the iteration loop inside `try`, finalization (champion
commit, summary write, install policy), and the `finally` clause that
restores the pre-session snapshot on every non-success path of the body. -/
def main_run (cfg : Config) (w : World) : RunResult :=
  match main_init cfg w with
  | .error (e, act) =>
    { exit := .error e, active := act, champion_file := w.champion
    , session_champion := none, summary_champion := none, final := none }
  | .ok is => main_body cfg w is

/-- Inversion of a successful initialization. -/
theorem main_init_ok_inv (cfg : Config) (w : World) {is : InitState}
    (h : main_init cfg w = .ok is) :
    ∃ base startP, w.base = some base ∧ start_source cfg w base = .ok startP ∧
      is = init_ok cfg w base startP := by
  unfold main_init at h
  split_ifs at h
  · -- binary build failed: every arm is an error
    rcases hbase : w.base with _ | base
    · rw [hbase] at h
      exact Except.noConfusion h
    · rw [hbase] at h
      have h2 : (match start_source cfg w base with
                 | Except.error e => Except.error (e, some (seeded_profile w base))
                 | Except.ok startP =>
                     Except.error (Fatal.buildFailed, some (seeded_profile w base))) =
          Except.ok is := h
      rcases hss : start_source cfg w base with e | startP
      · rw [hss] at h2
        exact Except.noConfusion h2
      · rw [hss] at h2
        exact Except.noConfusion h2
  · rcases hbase : w.base with _ | base
    · rw [hbase] at h
      exact Except.noConfusion h
    · rw [hbase] at h
      have h2 : (match start_source cfg w base with
                 | Except.error e => Except.error (e, some (seeded_profile w base))
                 | Except.ok startP => Except.ok (init_ok cfg w base startP)) =
          Except.ok is := h
      rcases hss : start_source cfg w base with e | startP
      · rw [hss] at h2
        exact Except.noConfusion h2
      · rw [hss] at h2
        exact ⟨base, startP, rfl, hss, (Except.ok.inj h2).symm⟩

theorem main_run_init_error (cfg : Config) (w : World) (e : Fatal)
    (act : Option Profile) (h : main_init cfg w = .error (e, act)) :
    (main_run cfg w).exit = .error e ∧ (main_run cfg w).active = act := by
  unfold main_run
  rw [h]
  exact ⟨rfl, rfl⟩

theorem main_run_of_init_ok (cfg : Config) (w : World) (is : InitState)
    (hinit : main_init cfg w = .ok is) :
    main_run cfg w = main_body cfg w is := by
  unfold main_run
  rw [hinit]

theorem main_run_body_error (cfg : Config) (w : World) (is : InitState) (e : Fatal)
    (hinit : main_init cfg w = .ok is)
    (hrun : run_iters cfg.selection_metric cfg.bot cfg.candidates.toNat w.inputs 1
      cfg.iterations.toNat (init_loop_state is) = .error e) :
    (main_run cfg w).exit = .error e ∧
      (main_run cfg w).active = some is.old_profile := by
  rw [main_run_of_init_ok cfg w is hinit]
  unfold main_body
  rw [hrun]
  exact ⟨rfl, rfl⟩

theorem main_run_of_body_ok (cfg : Config) (w : World) (is : InitState)
    (st : LoopState)
    (hinit : main_init cfg w = .ok is)
    (hrun : run_iters cfg.selection_metric cfg.bot cfg.candidates.toNat w.inputs 1
      cfg.iterations.toNat (init_loop_state is) = .ok st) :
    main_run cfg w = main_finalize cfg w is st := by
  rw [main_run_of_init_ok cfg w is hinit]
  unfold main_body
  rw [hrun]

theorem main_run_success (cfg : Config) (w : World) (is : InitState)
    (st : LoopState) (gb : CandidateResult)
    (hinit : main_init cfg w = .ok is)
    (hrun : run_iters cfg.selection_metric cfg.bot cfg.candidates.toNat w.inputs 1
      cfg.iterations.toNat (init_loop_state is) = .ok st)
    (hgb : st.global_best = some gb) :
    (main_run cfg w).exit = .ok () ∧
      (main_run cfg w).champion_file = some st.global_best_profile ∧
      (main_run cfg w).session_champion = some st.global_best_profile ∧
      (main_run cfg w).summary_champion = some st.global_best_profile ∧
      (main_run cfg w).final = some st ∧
      (main_run cfg w).active = some (match cfg.install_mode with
        | .champion => st.global_best_profile
        | .restore => is.old_profile) := by
  rw [main_run_of_body_ok cfg w is st hinit hrun]
  unfold main_finalize
  rw [hgb]
  exact ⟨rfl, rfl, rfl, rfl, rfl, rfl⟩

/-- Exit code 0 happens only on the single success path: after the loop
completed, with a global best present, the champion files and summary
written. -/
theorem main_run_ok_inversion (cfg : Config) (w : World)
    (h : (main_run cfg w).exit = .ok ()) :
    ∃ is st gb, main_init cfg w = .ok is ∧
      run_iters cfg.selection_metric cfg.bot cfg.candidates.toNat w.inputs 1
        cfg.iterations.toNat (init_loop_state is) = .ok st ∧
      st.global_best = some gb := by
  rcases hinit : main_init cfg w with ⟨e, act⟩ | is
  · obtain ⟨hx, _⟩ := main_run_init_error cfg w e act hinit
    rw [hx] at h
    exact Except.noConfusion h
  · rcases hrun : run_iters cfg.selection_metric cfg.bot cfg.candidates.toNat w.inputs 1
        cfg.iterations.toNat (init_loop_state is) with e | st
    · obtain ⟨hx, _⟩ := main_run_body_error cfg w is e hinit hrun
      rw [hx] at h
      exact Except.noConfusion h
    · rcases hgb : st.global_best with _ | gb
      · have hx : (main_run cfg w).exit = .error .noCandidates := by
          rw [main_run_of_body_ok cfg w is st hinit hrun]
          unfold main_finalize
          rw [hgb]
        rw [hx] at h
        exact Except.noConfusion h
      · exact ⟨is, st, gb, rfl, hrun, hgb⟩

theorem run_iters_gb_inv (m : Metric) (bot : String) (cands : ℕ)
    (inputs : ℕ → IterInput) :
    ∀ (rem iteration : ℕ) (st : LoopState) {st' : LoopState},
      run_iters m bot cands inputs iteration rem st = .ok st' →
      GB_inv m st → GB_inv m st' := by
  intro rem
  induction rem with
  | zero =>
    intro iteration st st' hrun hinv
    unfold run_iters at hrun
    cases Except.ok.inj hrun
    exact hinv
  | succ n ih =>
    intro iteration st st' hrun hinv
    unfold run_iters at hrun
    rcases hstep : iter_step m bot cands iteration st (inputs iteration) with e | st2
    · rw [hstep] at hrun
      exact Except.noConfusion hrun
    · rw [hstep] at hrun
      exact ih (iteration + 1) st2 hrun
        (iter_step_gb_inv m bot cands iteration st (inputs iteration) hstep hinv)

/-! ### Concrete profiles for witnesses and counterexamples -/

/-- All-defaults profile: every scale key `1.0`, delta `0.0`. -/
def pOne : Profile := normalize_profile []

/-- A raw partial profile with an out-of-range value. -/
def praw : Profile := [("risk_weight_scale", 5)]

/-- `praw` normalized: `risk_weight_scale` clamps to its upper bound. -/
def pHi : Profile := normalize_profile praw

/-- A profile one micro-step above `pOne` on one key. -/
def pTinyRaw : Profile := [("risk_weight_scale", 1 + 1/1000000)]

def pTiny : Profile := normalize_profile pTinyRaw

theorem risk_mem_scale : "risk_weight_scale" ∈ SCALE_KEYS := by decide

theorem round6_eq_of {x : ℚ} (n : ℤ) (h : x = (n : ℚ) / 1000000) : round6 x = x := by
  rw [h, round6_intCast_div]

theorem round6_one : round6 (1 : ℚ) = 1 :=
  round6_eq_of 1000000 (by norm_num)

theorem round6_zero : round6 (0 : ℚ) = 0 :=
  round6_eq_of 0 (by norm_num)

theorem one_in_scale_bounds :
    ∀ k ∈ SCALE_KEYS, (SCALE_BOUNDS k).1 ≤ 1 ∧ 1 ≤ (SCALE_BOUNDS k).2 := by
  have hint : ∀ k ∈ SCALE_KEYS,
      (SCALE_BOUNDS_INT k).1 ≤ 1000000 ∧ 1000000 ≤ (SCALE_BOUNDS_INT k).2 := by decide
  intro k hk
  obtain ⟨h1, h2⟩ := hint k hk
  have h6 : (0 : ℚ) < 1000000 := by norm_num
  constructor
  · unfold SCALE_BOUNDS
    rw [div_le_iff₀ h6]
    have hc : ((SCALE_BOUNDS_INT k).1 : ℚ) ≤ ((1000000 : ℤ) : ℚ) := Int.cast_le.mpr h1
    push_cast at hc
    linarith
  · unfold SCALE_BOUNDS
    rw [le_div_iff₀ h6]
    have hc : ((1000000 : ℤ) : ℚ) ≤ ((SCALE_BOUNDS_INT k).2 : ℚ) := Int.cast_le.mpr h2
    push_cast at hc
    linarith

theorem zero_in_delta_bounds : DELTA_BOUNDS.1 ≤ 0 ∧ 0 ≤ DELTA_BOUNDS.2 := by
  constructor <;>
  · unfold DELTA_BOUNDS DELTA_BOUNDS_INT
    push_cast
    norm_num

theorem pOne_lookup_scale (k : String) (hk : k ∈ SCALE_KEYS) :
    List.lookup k pOne = some 1 := by
  unfold pOne
  rw [lookup_normalize_scale [] k hk]
  have hget : pget [] k 1 = 1 := rfl
  obtain ⟨h1, h2⟩ := one_in_scale_bounds k hk
  rw [hget, clamp_eq_self h1 h2, round6_one]

theorem pOne_lookup_delta : List.lookup DELTA_KEY pOne = some 0 := by
  unfold pOne
  rw [lookup_normalize_delta []]
  have hget : pget [] DELTA_KEY 0 = 0 := rfl
  obtain ⟨h1, h2⟩ := zero_in_delta_bounds
  rw [hget, clamp_eq_self h1 h2, round6_zero]

theorem pOne_pget_scale (k : String) (hk : k ∈ SCALE_KEYS) (d : ℚ) :
    pget pOne k d = 1 := by
  unfold pget
  rw [pOne_lookup_scale k hk]
  rfl

theorem pOne_pget_delta (d : ℚ) : pget pOne DELTA_KEY d = 0 := by
  unfold pget
  rw [pOne_lookup_delta]
  rfl

theorem pOne_normalized : Normalized pOne := normalize_normalize []

/-- The `risk_weight_scale` interval as explicit rationals. -/
theorem risk_bounds_eq :
    SCALE_BOUNDS "risk_weight_scale" =
      (((350000 : ℤ) : ℚ) / 1000000, ((2300000 : ℤ) : ℚ) / 1000000) := rfl

theorem pHi_lookup_risk :
    List.lookup "risk_weight_scale" pHi =
      some (((2300000 : ℤ) : ℚ) / 1000000) := by
  unfold pHi
  rw [lookup_normalize_scale praw "risk_weight_scale" risk_mem_scale]
  have hget : pget praw "risk_weight_scale" 1 = 5 := rfl
  have hclamp : clamp 5 (SCALE_BOUNDS "risk_weight_scale").1
      (SCALE_BOUNDS "risk_weight_scale").2 = (SCALE_BOUNDS "risk_weight_scale").2 := by
    unfold clamp
    rw [risk_bounds_eq]
    rw [min_eq_left (by push_cast; norm_num)]
    rw [max_eq_right (by push_cast; norm_num)]
  rw [hget, hclamp, (scale_bounds_round6_fixed "risk_weight_scale").2, risk_bounds_eq]

theorem praw_ne_pHi : praw ≠ pHi := by
  intro heq
  have h1 : List.lookup "risk_weight_scale" praw = some 5 := rfl
  have h2 := pHi_lookup_risk
  rw [← heq] at h2
  rw [h1] at h2
  have h3 : (5 : ℚ) = ((2300000 : ℤ) : ℚ) / 1000000 := Option.some.inj h2
  rw [show ((2300000 : ℤ) : ℚ) = (2300000 : ℚ) by push_cast; rfl] at h3
  norm_num at h3

theorem pTiny_lookup_risk :
    List.lookup "risk_weight_scale" pTiny = some (1 + 1/1000000) := by
  unfold pTiny
  rw [lookup_normalize_scale pTinyRaw "risk_weight_scale" risk_mem_scale]
  have hget : pget pTinyRaw "risk_weight_scale" 1 = 1 + 1/1000000 := rfl
  have hclamp : clamp (1 + 1/1000000) (SCALE_BOUNDS "risk_weight_scale").1
      (SCALE_BOUNDS "risk_weight_scale").2 = 1 + 1/1000000 := by
    apply clamp_eq_self
    · rw [risk_bounds_eq]
      push_cast
      norm_num
    · rw [risk_bounds_eq]
      push_cast
      norm_num
  rw [hget, hclamp, round6_eq_of 1000001 (by norm_num)]

theorem pTiny_pget_risk (d : ℚ) :
    pget pTiny "risk_weight_scale" d = 1 + 1/1000000 := by
  unfold pget
  rw [pTiny_lookup_risk]
  rfl

theorem pTiny_lookup_scale (k : String) (hk : k ∈ SCALE_KEYS)
    (hne : k ≠ "risk_weight_scale") :
    List.lookup k pTiny = some 1 := by
  unfold pTiny
  rw [lookup_normalize_scale pTinyRaw k hk]
  have hget : pget pTinyRaw k 1 = 1 := by
    unfold pget pTinyRaw
    have hbeq : (k == "risk_weight_scale") = false := by simp [hne]
    simp [List.lookup, hbeq]
  obtain ⟨h1, h2⟩ := one_in_scale_bounds k hk
  rw [hget, clamp_eq_self h1 h2, round6_one]

theorem pTiny_pget_scale (k : String) (hk : k ∈ SCALE_KEYS)
    (hne : k ≠ "risk_weight_scale") (d : ℚ) : pget pTiny k d = 1 := by
  unfold pget
  rw [pTiny_lookup_scale k hk hne]
  rfl

theorem pTiny_lookup_delta : List.lookup DELTA_KEY pTiny = some 0 := by
  unfold pTiny
  rw [lookup_normalize_delta pTinyRaw]
  have hget : pget pTinyRaw DELTA_KEY 0 = 0 := rfl
  obtain ⟨h1, h2⟩ := zero_in_delta_bounds
  rw [hget, clamp_eq_self h1 h2, round6_zero]

theorem pTiny_pget_delta (d : ℚ) : pget pTiny DELTA_KEY d = 0 := by
  unfold pget
  rw [pTiny_lookup_delta]
  rfl

theorem pTiny_normalized : Normalized pTiny := normalize_normalize pTinyRaw

theorem pTiny_ne_pOne : pTiny ≠ pOne := by
  intro heq
  have h1 := pTiny_lookup_risk
  rw [heq, pOne_lookup_scale "risk_weight_scale" risk_mem_scale] at h1
  have h2 : (1 : ℚ) = 1 + 1/1000000 := Option.some.inj h1
  norm_num at h2

/-! ### Claim C6: duplicate signatures are rejected within an iteration -/

/-- C6: within any single iteration no two accepted candidates share a
profile signature — the generation phase produces a spec list whose
signatures are pairwise distinct — and any push whose normalized signature
was already produced this iteration is rejected without changing the
state. -/
theorem candidate_dedup_within_iteration :
    (∀ (cands : ℕ) (incumbent : Profile) (proposals : List (Profile × String)),
      (((generate_candidates cands incumbent proposals).specs).map
        (fun sp => profile_signature sp.1)).Nodup) ∧
    (∀ (g : GenState) (p : Profile) (s : String),
      profile_signature (normalize_profile p) ∈ g.seen →
      push_candidate g p s = (g, false)) := by
  constructor
  · intro cands incumbent proposals
    exact (generate_candidates_good cands incumbent proposals).2
  · intro g p s hmem
    unfold push_candidate
    rw [if_pos hmem]

/-- Witness for C6: a push whose signature is already in `seen` is a no-op. -/
theorem candidate_dedup_within_iteration_witness :
    push_candidate ⟨[], [profile_signature (normalize_profile pOne)]⟩ pOne "mutate" =
      (⟨[], [profile_signature (normalize_profile pOne)]⟩, false) :=
  candidate_dedup_within_iteration.2
    ⟨[], [profile_signature (normalize_profile pOne)]⟩ pOne "mutate"
    (List.mem_cons_self _ _)

/-! ### Claim C2: crashed evaluations become sentinels that never win -/

/-- C2: a candidate whose external evaluation exits non-zero is recorded as
the failure sentinel `(-inf, -inf, 0, 0)`; the session continues (with an
all-crashing oracle the evaluation pass still returns successfully and every
recorded result is the sentinel); and under each of the three selection
metrics a sentinel's 4-tuple is never strictly greater than the 4-tuple of a
successfully evaluated result (one with a real `avg_score` and non-negative
`max_score`). -/
theorem crashed_candidates_become_sentinels :
    (∀ bot, eval_candidate bot .crashed = .ok (⊥, ⊥, 0, 0)) ∧
    (∀ (bot : String) (iteration : ℕ) (oracle : ℕ → OracleOutcome),
      (∀ j, oracle j = .crashed) →
      ∀ (specs : List (Profile × String)) (idx : ℕ) (active : Profile),
        ∃ results active2,
          eval_fold bot iteration oracle specs idx active [] = .ok (results, active2) ∧
          ∀ r ∈ results, is_sentinel r) ∧
    (∀ (m : Metric) (s r : CandidateResult), is_sentinel s →
      r.avg_score ≠ ⊥ → 0 ≤ r.max_score → ¬ better_than s r m) := by
  refine ⟨fun _ => rfl, ?_, sentinel_never_outranks⟩
  intro bot iteration oracle hc specs idx active
  obtain ⟨results, active2, heq, hmem⟩ :=
    eval_fold_all_crashed bot iteration oracle hc specs idx active []
  refine ⟨results, active2, heq, fun r hr => ?_⟩
  rcases hmem r hr with h | h
  · cases h
  · exact h

/-- A concrete sentinel result. -/
def s0 : CandidateResult :=
  ⟨1, 0, "mutate", ⊥, ⊥, 0, 0, []⟩

/-- A concrete successfully evaluated result. -/
def r0 : CandidateResult :=
  ⟨1, 1, "incumbent", ((0 : ℚ) : Val), ((0 : ℚ) : Val), 0, 0, []⟩

/-- Witness for C2: the sentinel does not outrank a real result. -/
theorem crashed_candidates_become_sentinels_witness :
    ¬ better_than s0 r0 .objective :=
  crashed_candidates_become_sentinels.2.2 .objective s0 r0
    ⟨rfl, rfl, rfl, rfl⟩ (WithBot.coe_ne_bot) (le_refl 0)

/-! ### Claim C8: a missing target bot is fatal, not a sentinel -/

/-- C8: when the external process succeeds but its parsed summary holds no
entry for the target bot, the evaluation raises the fatal error instead of
recording a sentinel: `eval_candidate` returns the `botMissing` error, the
evaluation pass propagates it without recording a result for that candidate,
and any fatal error inside the session body surfaces as a non-zero exit with
the active profile restored to the normalized pre-session snapshot. -/
theorem missing_bot_aborts_session :
    (∀ bot rankings, find_ranking bot rankings = none →
      eval_candidate bot (.ok rankings) = .error .botMissing) ∧
    (∀ (bot : String) (iteration : ℕ) (oracle : ℕ → OracleOutcome)
      (profile : Profile) (strategy : String) (rest : List (Profile × String))
      (idx : ℕ) (active : Profile) (acc : List CandidateResult)
      (rankings : List Ranking),
      oracle idx = .ok rankings → find_ranking bot rankings = none →
      eval_fold bot iteration oracle ((profile, strategy) :: rest) idx active acc =
        .error .botMissing) ∧
    (∀ (cfg : Config) (w : World) (is : InitState) (e : Fatal),
      main_init cfg w = .ok is →
      run_iters cfg.selection_metric cfg.bot cfg.candidates.toNat w.inputs 1
        cfg.iterations.toNat (init_loop_state is) = .error e →
      (main_run cfg w).exit = .error e ∧
      (main_run cfg w).active = some is.old_profile) := by
  refine ⟨?_, eval_fold_bot_missing, main_run_body_error⟩
  intro bot rankings h
  show (match find_ranking bot rankings with
        | none => Except.error Fatal.botMissing
        | some v => Except.ok v) = Except.error Fatal.botMissing
  rw [h]

/-- Witness for C8: a successful oracle output without the target bot aborts
the evaluation pass with the fatal error. -/
theorem missing_bot_aborts_session_witness :
    eval_fold "b" 1 (fun _ => .ok []) [(pOne, "incumbent")] 0 pOne [] =
      .error .botMissing :=
  missing_bot_aborts_session.2.1 "b" 1 (fun _ => .ok []) pOne "incumbent" []
    0 pOne [] [] rfl rfl

/-! ### Claim C3: non-improvement leaves the trajectory state alone -/

/-- C3: in an iteration whose top-ranked candidate is not strictly greater
than the incumbent carry-over result under the configured metric, the
incumbent, the momentum vector and the last-gain anchor are unchanged and the
stagnation counter increases by exactly 1. -/
theorem non_improvement_increments_stagnation (m : Metric) (st : LoopState)
    (results : List CandidateResult) {winner ir : CandidateResult}
    {rest : List CandidateResult} {st' : LoopState}
    (hrank : rank m results = winner :: rest)
    (hfind : (winner :: rest).find? (fun r => r.strategy == "incumbent") = some ir)
    (hni : ¬ better_than winner ir m)
    (hupd : select_update m st results = .ok st') :
    st'.incumbent = st.incumbent ∧ st'.momentum = st.momentum ∧
    st'.last_gain_anchor = st.last_gain_anchor ∧
    st'.stagnation_count = st.stagnation_count + 1 := by
  rw [select_update_spec m st results hrank hfind] at hupd
  have hst' : st' = select_core m st winner ir := (Except.ok.inj hupd).symm
  subst hst'
  unfold select_core
  obtain ⟨hi, hm, hl, hs, _, _⟩ :=
    gb_update_preserves m winner st.global_best (adapt m st winner ir)
  rw [hi, hm, hl, hs, adapt_non_improved m st winner ir hni]
  exact ⟨rfl, rfl, rfl, rfl⟩

/-- A loop state used by concrete witnesses. -/
def stW : LoopState :=
  { incumbent := pOne, momentum := none, last_gain_anchor := none
  , stagnation_count := 0, global_best := none, global_best_profile := pOne
  , active := pOne, results_log := [] }

/-- A sentinel-valued incumbent carry-over result. -/
def rIncS : CandidateResult :=
  ⟨1, 0, "incumbent", ⊥, ⊥, 0, 0, pOne⟩

/-- Witness for C3: a one-candidate iteration where the winner is the
incumbent itself (never strictly better). -/
theorem non_improvement_increments_stagnation_witness :
    ∃ st', select_update .objective stW [rIncS] = .ok st' ∧
      st'.incumbent = stW.incumbent ∧ st'.momentum = stW.momentum ∧
      st'.last_gain_anchor = stW.last_gain_anchor ∧
      st'.stagnation_count = stW.stagnation_count + 1 := by
  have hrank : rank .objective [rIncS] = [rIncS] := rfl
  have hfind : ([rIncS] : List CandidateResult).find?
      (fun r => r.strategy == "incumbent") = some rIncS := rfl
  have hni : ¬ better_than rIncS rIncS .objective := lt_irrefl _
  have hupd := select_update_spec .objective stW [rIncS] hrank hfind
  exact ⟨_, hupd,
    non_improvement_increments_stagnation .objective stW [rIncS] hrank hfind hni hupd⟩

/-! ### Claim C4: improvement archives the incumbent and sets momentum -/

/-- C4: when the winner strictly beats the incumbent carry-over result, the
previous incumbent becomes the last-gain anchor, the stagnation counter
resets to 0, the incumbent becomes the winner's profile, and the momentum
vector is `profile_delta(new, previous)` — which on (always-normalized)
profiles is exactly the per-key elementwise difference over all scale keys
and the delta key. -/
theorem improvement_updates_momentum (m : Metric) (st : LoopState)
    (results : List CandidateResult) {winner ir : CandidateResult}
    {rest : List CandidateResult} {st' : LoopState}
    (hrank : rank m results = winner :: rest)
    (hfind : (winner :: rest).find? (fun r => r.strategy == "incumbent") = some ir)
    (himp : better_than winner ir m)
    (hupd : select_update m st results = .ok st')
    (hN1 : Normalized st.incumbent) (hN2 : Normalized winner.profile) :
    st'.incumbent = winner.profile ∧
    st'.last_gain_anchor = some st.incumbent ∧
    st'.stagnation_count = 0 ∧
    st'.momentum = some (profile_delta winner.profile st.incumbent) ∧
    (∀ k ∈ PROFILE_KEYS,
      List.lookup k (profile_delta winner.profile st.incumbent) =
        some (pget winner.profile k 0 - pget st.incumbent k 0)) := by
  rw [select_update_spec m st results hrank hfind] at hupd
  have hst' : st' = select_core m st winner ir := (Except.ok.inj hupd).symm
  subst hst'
  unfold select_core
  obtain ⟨hi, hm, hl, hs, _, _⟩ :=
    gb_update_preserves m winner st.global_best (adapt m st winner ir)
  rw [hi, hm, hl, hs, adapt_improved m st winner ir himp]
  refine ⟨rfl, rfl, rfl, rfl, ?_⟩
  intro k hk
  exact profile_delta_exact hN2 hN1 hk

/-- A winning candidate result carrying the `pTiny` profile. -/
def rWin : CandidateResult :=
  ⟨1, 1, "mutate", ((0 : ℚ) : Val), ((0 : ℚ) : Val), 0, 0, pTiny⟩

theorem rIncS_lt_rWin :
    metric_tuple rIncS .objective < metric_tuple rWin .objective := by
  have hb : (⊥ : Val) < ((0 : ℚ) : Val) := WithBot.bot_lt_coe 0
  show toLex (rIncS.objective_value, toLex (rIncS.avg_score,
      toLex (((rIncS.max_score : ℚ) : Val), ((rIncS.avg_frames : ℚ) : Val)))) <
    toLex (rWin.objective_value, toLex (rWin.avg_score,
      toLex (((rWin.max_score : ℚ) : Val), ((rWin.avg_frames : ℚ) : Val))))
  rw [Prod.Lex.lt_iff]
  exact Or.inl hb

theorem rank_two_results :
    rank .objective [rIncS, rWin] = [rWin, rIncS] := by
  have hnle : ¬ rank_le .objective rIncS rWin :=
    not_le.mpr rIncS_lt_rWin
  show List.orderedInsert (rank_le .objective) rIncS
      (List.orderedInsert (rank_le .objective) rWin []) = [rWin, rIncS]
  rw [List.orderedInsert_nil]
  unfold List.orderedInsert
  rw [if_neg hnle]
  rfl

theorem find_incumbent_two :
    ([rWin, rIncS] : List CandidateResult).find?
      (fun r => r.strategy == "incumbent") = some rIncS := rfl

/-- Witness for C4: a two-candidate iteration won by a strictly better
mutation. -/
theorem improvement_updates_momentum_witness :
    ∃ st', select_update .objective stW [rIncS, rWin] = .ok st' ∧
      st'.incumbent = rWin.profile ∧
      st'.last_gain_anchor = some stW.incumbent ∧
      st'.stagnation_count = 0 ∧
      st'.momentum = some (profile_delta rWin.profile stW.incumbent) ∧
      (∀ k ∈ PROFILE_KEYS,
        List.lookup k (profile_delta rWin.profile stW.incumbent) =
          some (pget rWin.profile k 0 - pget stW.incumbent k 0)) := by
  have hupd := select_update_spec .objective stW [rIncS, rWin]
    rank_two_results find_incumbent_two
  exact ⟨_, hupd,
    improvement_updates_momentum .objective stW [rIncS, rWin]
      rank_two_results find_incumbent_two rIncS_lt_rWin hupd
      pOne_normalized pTiny_normalized⟩

/-! ### Claim C9: the anchor filter only tracks the initial incumbent -/

theorem floor_int_add_fract (z : ℤ) (a : ℚ) (h1 : 0 ≤ a) (h2 : a < 1) :
    Int.floor ((z : ℚ) + a) = z := by
  rw [Int.floor_int_add]
  have : Int.floor a = 0 := by
    rw [Int.floor_eq_iff]
    constructor
    · exact_mod_cast h1
    · push_cast
      linarith
  rw [this, add_zero]

theorem round6_eval (x : ℚ) (n : ℤ) (a : ℚ)
    (hx : x * 1000000 + 1/2 = (n : ℚ) + a) (h1 : 0 ≤ a) (h2 : a < 1) :
    round6 x = (n : ℚ) / 1000000 := by
  unfold round6
  rw [hx, floor_int_add_fract n a h1 h2]

theorem clamp_alpha_three_tenths : clamp (3/10 : ℚ) 0 1 = 3/10 :=
  clamp_eq_self (by norm_num) (by norm_num)

/-- The blend strategy applied to incumbent `pOne` and anchor `pTiny` at
`alpha = 0.3` (inside the `blend_base` alpha range `[0.26, 0.78]`) rounds to
exactly `pTiny`. -/
theorem blend_pOne_pTiny : blend_profiles pOne pTiny (3/10) = pTiny := by
  rw [blend_profiles_eq_shaped]
  conv_rhs =>
    rw [show pTiny = shaped (fun k => pget pTinyRaw k 1) (pget pTinyRaw DELTA_KEY 0)
      from rfl]
  apply shaped_congr
  · intro k hk
    rw [clamp_alpha_three_tenths]
    by_cases hrisk : k = "risk_weight_scale"
    · subst hrisk
      rw [pOne_pget_scale _ risk_mem_scale, pTiny_pget_risk]
      rw [show ((1 : ℚ) * (3/10) + (1 + 1/1000000) * (1 - 3/10)) = 1 + 7/10000000
        from by norm_num]
      rw [show pget pTinyRaw "risk_weight_scale" 1 = 1 + 1/1000000 from rfl]
      rw [show clamp (1 + 7/10000000 : ℚ) (SCALE_BOUNDS "risk_weight_scale").1
          (SCALE_BOUNDS "risk_weight_scale").2 = 1 + 7/10000000 from
        clamp_eq_self (by rw [risk_bounds_eq]; push_cast; norm_num)
          (by rw [risk_bounds_eq]; push_cast; norm_num)]
      rw [show clamp (1 + 1/1000000 : ℚ) (SCALE_BOUNDS "risk_weight_scale").1
          (SCALE_BOUNDS "risk_weight_scale").2 = 1 + 1/1000000 from
        clamp_eq_self (by rw [risk_bounds_eq]; push_cast; norm_num)
          (by rw [risk_bounds_eq]; push_cast; norm_num)]
      rw [round6_eval (1 + 7/10000000 : ℚ) 1000001 (1/5)
        (by push_cast; norm_num) (by norm_num) (by norm_num)]
      rw [round6_eq_of 1000001
        (by push_cast; norm_num : (1 + 1/1000000 : ℚ) = ((1000001 : ℤ) : ℚ)/1000000)]
      push_cast
      norm_num
    · rw [pOne_pget_scale k hk, pTiny_pget_scale k hk hrisk]
      rw [show ((1 : ℚ) * (3/10) + 1 * (1 - 3/10)) = 1 from by norm_num]
      have hone : pget pTinyRaw k 1 = 1 := by
        unfold pget pTinyRaw
        have hbeq : (k == "risk_weight_scale") = false := by simp [hrisk]
        simp [List.lookup, hbeq]
      rw [hone]
  · rw [clamp_alpha_three_tenths, pOne_pget_delta, pTiny_pget_delta]
    rw [show ((0 : ℚ) * (3/10) + 0 * (1 - 3/10)) = 0 from by norm_num]
    rw [show pget pTinyRaw DELTA_KEY 0 = 0 from rfl]

/-- C9 (amended): the anchor set built at session start excludes exactly the
anchors whose signature equals the INITIAL incumbent's signature: every kept
anchor is a normalized source profile with a different signature, and every
existing source with a different signature is kept.  (The set is never
refiltered when the incumbent moves.) -/
theorem anchors_exclude_initial_incumbent :
    (∀ (pairs : List (String × Profile)) (isig : Profile) (l : String) (q : Profile),
      (l, q) ∈ filter_anchors pairs isig →
      profile_signature q ≠ isig ∧ Normalized q ∧
        ∃ p, (l, p) ∈ pairs ∧ q = normalize_profile p) ∧
    (∀ (pairs : List (String × Profile)) (isig : Profile) (l : String) (p : Profile),
      (l, p) ∈ pairs →
      profile_signature (normalize_profile p) ≠ isig →
      (l, normalize_profile p) ∈ filter_anchors pairs isig) :=
  ⟨filter_anchors_sound, filter_anchors_complete⟩

theorem pTinyRaw_sig_ne_pOne_sig :
    profile_signature (normalize_profile pTinyRaw) ≠ profile_signature pOne := by
  show normalize_profile (normalize_profile pTinyRaw) ≠ normalize_profile pOne
  rw [normalize_normalize pTinyRaw]
  rw [show normalize_profile pOne = pOne from pOne_normalized]
  exact pTiny_ne_pOne

/-- Witness for the amended C9 at a concrete anchor list. -/
theorem anchors_exclude_initial_incumbent_witness :
    profile_signature pTiny ≠ profile_signature pOne ∧ Normalized pTiny ∧
      ∃ p, ("base", p) ∈ [("base", pTinyRaw)] ∧ pTiny = normalize_profile p := by
  have hmem : ("base", normalize_profile pTinyRaw) ∈
      filter_anchors [("base", pTinyRaw)] (profile_signature pOne) :=
    filter_anchors_complete _ _ _ _ (List.mem_cons_self _ _) pTinyRaw_sig_ne_pOne_sig
  exact anchors_exclude_initial_incumbent.1 [("base", pTinyRaw)]
    (profile_signature pOne) "base" (normalize_profile pTinyRaw) hmem

/-- C9 counterexample: the claim "at every point in a session the anchor set
contains no anchor whose signature equals the current incumbent's" fails.
At session start the filter (run against the initial incumbent `pOne`) keeps
the base anchor `pTiny`; the blend strategy can produce exactly `pTiny`; and
after an iteration won by that candidate the incumbent IS `pTiny`, while the
anchor set — never refiltered — still contains the anchor with that very
signature. -/
theorem anchor_set_contains_incumbent_counterexample :
    filter_anchors [("base", pTinyRaw)] (profile_signature pOne) = [("base", pTiny)] ∧
    blend_profiles pOne pTiny (3/10) = pTiny ∧
    ∃ st', select_update .objective stW [rIncS, rWin] = .ok st' ∧
      ("base", pTiny) ∈ filter_anchors [("base", pTinyRaw)] (profile_signature pOne) ∧
      profile_signature pTiny = profile_signature st'.incumbent := by
  have hfa : filter_anchors [("base", pTinyRaw)] (profile_signature pOne) =
      [("base", pTiny)] := by
    unfold filter_anchors
    simp only [List.filterMap_cons, List.filterMap_nil]
    rw [if_neg pTinyRaw_sig_ne_pOne_sig]
    rfl
  refine ⟨hfa, blend_pOne_pTiny, ?_⟩
  have hupd := select_update_spec .objective stW [rIncS, rWin]
    rank_two_results find_incumbent_two
  refine ⟨_, hupd, ?_, ?_⟩
  · rw [hfa]
    exact List.mem_cons_self _ _
  · have hinc : (select_core .objective stW rWin rIncS).incumbent = pTiny := by
      unfold select_core
      obtain ⟨hi, _, _, _, _, _⟩ := gb_update_preserves .objective rWin
        stW.global_best (adapt .objective stW rWin rIncS)
      rw [hi, adapt_improved .objective stW rWin rIncS rIncS_lt_rWin]
      rfl
    rw [hinc]

/-! ### Claim C1: exit discipline and active-profile rollback -/

/-- C1 (amended): the process exits 0 only after the champion profile has
been committed (session copy and shared champion file) and the session
summary written; every failure raised inside the protected session body
restores the active profile to the normalized pre-session snapshot and exits
non-zero; a failure during initialization — before the snapshot protection
begins — exits non-zero with the active-profile file left exactly as it was
at the failure point (not necessarily equal to the normalized snapshot). -/
theorem main_exit_and_rollback (cfg : Config) (w : World) :
    ((main_run cfg w).exit = .ok () →
      ∃ p, (main_run cfg w).champion_file = some p ∧
        (main_run cfg w).session_champion = some p ∧
        (main_run cfg w).summary_champion = some p) ∧
    (∀ (is : InitState) (e : Fatal), main_init cfg w = .ok is →
      (main_run cfg w).exit = .error e →
      (main_run cfg w).active = some is.old_profile ∧
      is.old_profile = normalize_profile is.seeded_active) ∧
    (∀ (e : Fatal) (act : Option Profile), main_init cfg w = .error (e, act) →
      (main_run cfg w).exit = .error e ∧ (main_run cfg w).active = act) := by
  refine ⟨?_, ?_, fun e act h => main_run_init_error cfg w e act h⟩
  · intro h
    obtain ⟨is, st, gb, hinit, hrun, hgb⟩ := main_run_ok_inversion cfg w h
    obtain ⟨_, h1, h2, h3, _, _⟩ := main_run_success cfg w is st gb hinit hrun hgb
    exact ⟨st.global_best_profile, h1, h2, h3⟩
  · intro is e hinit hexit
    have hold : is.old_profile = normalize_profile is.seeded_active := by
      obtain ⟨base, startP, _, _, his⟩ := main_init_ok_inv cfg w hinit
      rw [his]
      rfl
    refine ⟨?_, hold⟩
    rcases hrun : run_iters cfg.selection_metric cfg.bot cfg.candidates.toNat
        w.inputs 1 cfg.iterations.toNat (init_loop_state is) with e2 | st
    · exact (main_run_body_error cfg w is e2 hinit hrun).2
    · rcases hgb : st.global_best with _ | gb
      · rw [main_run_of_body_ok cfg w is st hinit hrun]
        unfold main_finalize
        rw [hgb]
      · obtain ⟨hx, _, _, _, _, _⟩ := main_run_success cfg w is st gb hinit hrun hgb
        rw [hx] at hexit
        exact Except.noConfusion hexit

/-- A configuration rejected by validation (`--iterations 0`). -/
def cfg_invalid : Config :=
  { iterations := 0, candidates := 6, max_frames := 108000
  , bot := "codex-potential-adaptive", install_mode := .champion
  , anchor_mode := .core, selection_metric := .score, has_start_profile := false }

/-- A world whose active-profile file holds raw, unnormalized content. -/
def w_invalid : World :=
  { seeds_exists := true, base := some [], champion := none, active := some praw
  , start_profile := none, archived := [], buildOk := true
  , inputs := fun _ => ⟨[], fun _ => .crashed⟩ }

/-- C1 counterexample: with `--iterations 0` and an unnormalized active
profile, the process exits non-zero but the active-profile file is NOT
restored to the normalized pre-session snapshot — it still holds the raw
content, which differs from its normalization. -/
theorem rollback_counterexample :
    (main_run cfg_invalid w_invalid).exit = .error .badIterations ∧
    (main_run cfg_invalid w_invalid).active = some praw ∧
    some praw ≠ some (normalize_profile praw) := by
  refine ⟨rfl, rfl, ?_⟩
  intro h
  exact praw_ne_pHi (Option.some.inj h)

/-- Witness for the amended C1: an init-time failure exits non-zero and
leaves the active file untouched. -/
theorem main_exit_and_rollback_witness :
    (main_run cfg_invalid w_invalid).exit = .error .badIterations ∧
    (main_run cfg_invalid w_invalid).active = some praw :=
  (main_exit_and_rollback cfg_invalid w_invalid).2.2 .badIterations (some praw) rfl

/-! ### Claim C5: global-best monotonicity and the final champion -/

/-- C5: across a session the global best never decreases under the active
metric from iteration to iteration; after any successful run it is one of
the evaluated results and maximal among all of them, independent of where
the incumbent moved; and the committed champion (session copy, shared
champion file and summary) is exactly the global-best candidate's profile. -/
theorem global_best_monotone_and_champion :
    (∀ (m : Metric) (bot : String) (cands iteration : ℕ) (st : LoopState)
      (inp : IterInput) (st' : LoopState),
      iter_step m bot cands iteration st inp = .ok st' →
      ∀ gb, st.global_best = some gb →
        ∃ gb', st'.global_best = some gb' ∧
          metric_tuple gb m ≤ metric_tuple gb' m) ∧
    (∀ (m : Metric) (bot : String) (cands : ℕ) (inputs : ℕ → IterInput)
      (rem iteration : ℕ) (st st' : LoopState),
      run_iters m bot cands inputs iteration rem st = .ok st' →
      GB_inv m st → GB_inv m st') ∧
    (∀ (cfg : Config) (w : World), (main_run cfg w).exit = .ok () →
      ∃ st gb, (main_run cfg w).final = some st ∧ st.global_best = some gb ∧
        gb ∈ st.results_log ∧
        (∀ r ∈ st.results_log,
          metric_tuple r cfg.selection_metric ≤ metric_tuple gb cfg.selection_metric) ∧
        st.global_best_profile = gb.profile ∧
        (main_run cfg w).champion_file = some gb.profile ∧
        (main_run cfg w).session_champion = some gb.profile ∧
        (main_run cfg w).summary_champion = some gb.profile) := by
  refine ⟨?_, ?_, ?_⟩
  · intro m bot cands iteration st inp st' hstep gb hgb
    exact iter_step_gb_mono m bot cands iteration st inp hstep gb hgb
  · intro m bot cands inputs rem iteration st st' hrun hinv
    exact run_iters_gb_inv m bot cands inputs rem iteration st hrun hinv
  · intro cfg w h
    obtain ⟨is, st, gb, hinit, hrun, hgb⟩ := main_run_ok_inversion cfg w h
    have hinv0 : GB_inv cfg.selection_metric (init_loop_state is) := rfl
    have hinv := run_iters_gb_inv cfg.selection_metric cfg.bot cfg.candidates.toNat
      w.inputs cfg.iterations.toNat 1 (init_loop_state is) hrun hinv0
    unfold GB_inv at hinv
    rw [hgb] at hinv
    obtain ⟨hmem, hmax, hprof⟩ := hinv
    obtain ⟨_, h1, h2, h3, hfin, _⟩ := main_run_success cfg w is st gb hinit hrun hgb
    exact ⟨st, gb, hfin, hgb, hmem, hmax, hprof,
      by rw [h1, hprof], by rw [h2, hprof], by rw [h3, hprof]⟩

/-- A pre-seeded global best used by the concrete C5 witness. -/
def gb0 : CandidateResult := ⟨0, 0, "incumbent", ⊥, ⊥, 0, 0, pOne⟩

def stG : LoopState :=
  { incumbent := pOne, momentum := none, last_gain_anchor := none
  , stagnation_count := 0, global_best := some gb0, global_best_profile := pOne
  , active := pOne, results_log := [gb0] }

def inpG : IterInput := ⟨[], fun _ => .crashed⟩

def rEval : CandidateResult :=
  ⟨1, 0, "incumbent", ⊥, ⊥, 0, 0, normalize_profile pOne⟩

def ST5 : LoopState :=
  { incumbent := pOne, momentum := none, last_gain_anchor := none
  , stagnation_count := 1, global_best := some gb0, global_best_profile := pOne
  , active := normalize_profile pOne, results_log := [gb0, rEval] }

theorem gb_update_not_better (m : Metric) (winner gb : CandidateResult)
    (st1 : LoopState) (h : ¬ better_than winner gb m) :
    gb_update m winner (some gb) st1 = st1 := by
  show (if better_than winner gb m then
          { st1 with global_best := some winner
                   , global_best_profile := winner.profile }
        else st1) = st1
  rw [if_neg h]

/-- One fully concrete non-improving iteration from a state carrying a
global best. -/
theorem iter_step_concrete : iter_step .objective "b" 1 1 stG inpG = .ok ST5 := by
  have hgspecs : (generate_candidates 1 stG.incumbent inpG.proposals).specs =
      [(normalize_profile pOne, "incumbent")] := by
    show ((push_candidate ⟨[], []⟩ pOne "incumbent").1).specs =
      [(normalize_profile pOne, "incumbent")]
    unfold push_candidate
    rw [if_neg (List.not_mem_nil _)]
    rfl
  have heval : eval_fold "b" 1 inpG.oracle [(normalize_profile pOne, "incumbent")]
      0 stG.active [] = .ok ([rEval], normalize_profile pOne) := rfl
  have hrank5 : rank .objective [rEval] = [rEval] := rfl
  have hfind5 : ([rEval] : List CandidateResult).find?
      (fun r => r.strategy == "incumbent") = some rEval := rfl
  have hni5 : ¬ better_than rEval rEval .objective := lt_irrefl _
  have htup : metric_tuple gb0 .objective = metric_tuple rEval .objective := rfl
  have hngb : ¬ better_than rEval gb0 .objective := by
    intro hlt
    have hlt2 : metric_tuple gb0 .objective < metric_tuple rEval .objective := hlt
    rw [htup] at hlt2
    exact lt_irrefl _ hlt2
  have hsel : select_update .objective { stG with active := normalize_profile pOne }
      [rEval] = .ok (select_core .objective
        { stG with active := normalize_profile pOne } rEval rEval) :=
    select_update_spec _ _ _ hrank5 hfind5
  have hcore : select_core .objective { stG with active := normalize_profile pOne }
      rEval rEval =
        { stG with active := normalize_profile pOne, stagnation_count := 1 } := by
    unfold select_core
    rw [show ({ stG with active := normalize_profile pOne } : LoopState).global_best =
      some gb0 from rfl]
    rw [adapt_non_improved _ _ _ _ hni5, gb_update_not_better _ _ _ _ hngb]
    rfl
  unfold iter_step
  rw [hgspecs]
  rw [if_neg (by decide :
    ¬ ([(normalize_profile pOne, "incumbent")].length < 1))]
  rw [heval]
  show (match select_update .objective { stG with active := normalize_profile pOne }
          [rEval] with
        | Except.error e => Except.error e
        | Except.ok st2 =>
            Except.ok { st2 with results_log := stG.results_log ++ [rEval] }) =
    Except.ok ST5
  rw [hsel]
  show Except.ok { (select_core .objective
      { stG with active := normalize_profile pOne } rEval rEval) with
        results_log := stG.results_log ++ [rEval] } = Except.ok ST5
  rw [hcore]
  rfl

/-- Witness for C5: the global best survives a concrete non-improving
iteration without decreasing. -/
theorem global_best_monotone_and_champion_witness :
    ∃ gb', ST5.global_best = some gb' ∧
      metric_tuple gb0 .objective ≤ metric_tuple gb' .objective :=
  global_best_monotone_and_champion.1 .objective "b" 1 1 stG inpG ST5
    iter_step_concrete gb0 rfl

end IterSearch
